import Mathlib

/-!
Verification development for the workflow execution engine
(`backend/app/services/workflow_engine.py` and the workflow models in
`backend/app/models/workflow.py`).

The Python code is shallowly embedded:
* JSON-like dynamic Python values are the inductive type `PyVal`
  (floats are modelled as rationals; the unicode corner cases of
  `str.strip`/`str.isdigit`/`str.upper` are modelled by their ASCII
  behaviour, which is what every claim exercises);
* stateful code (the ORM records mutated by the engine) becomes explicit
  state passing over plain record structures;
* the live execution context is the object graph `CtxG`: an `end` node's
  stored output is the context object itself (`_execute_end_node` returns
  `context`, and `context["nodes"][id] = output` then makes it
  self-referential), kept as an explicit reference (`NodeOut.ctxSelf`)
  rather than a value snapshot;
* code that raises becomes `Except String`, carrying `str(e)`;
* the external collaborators (LLM service, embedding service, HTTP client,
  database rows behind `db.query`, the regex engine used by the `extract`
  string operation, and the wall clock) are fields of an `Env` record, so
  theorems quantify over their behaviour;
* unbounded loops are given explicit fuel together with, where a theorem
  depends on it, a proof that the chosen fuel can never run out.
-/

namespace PKU

/-- Python/JSON dynamic values.  `rat` models Python floats as exact
rationals; `dict` is an insertion-ordered association list, which is how
CPython dicts behave. -/
inductive PyVal where
  | null : PyVal
  | bool : Bool → PyVal
  | int : Int → PyVal
  | rat : ℚ → PyVal
  | str : String → PyVal
  | list : List PyVal → PyVal
  | dict : List (String × PyVal) → PyVal

/-- First binding of a key in an association list (CPython dict lookup). -/
def pyLookup : List (String × PyVal) → String → Option PyVal
  | [], _ => Option.none
  | (k, v) :: rest, key => if k = key then some v else pyLookup rest key

/-- `d[k] = v` on a CPython dict: replace in place if the key exists
(keeping its position), otherwise append. -/
def pyDictSet {α : Type} : List (String × α) → String → α → List (String × α)
  | [], key, v => [(key, v)]
  | (k, w) :: rest, key, v =>
      if k = key then (k, v) :: rest else (k, w) :: pyDictSet rest key v

/-- Python `config.get(key, default)` on a dict. -/
def cfgGet (config : List (String × PyVal)) (key : String) (dflt : PyVal) : PyVal :=
  (pyLookup config key).getD dflt

/-- Python truthiness of a value. -/
def pyTruthy : PyVal → Bool
  | .null => false
  | .bool b => b
  | .int n => decide (n ≠ 0)
  | .rat q => decide (q ≠ 0)
  | .str s => decide (s ≠ "")
  | .list l => !l.isEmpty
  | .dict d => !d.isEmpty

mutual
/-- Python `repr` of a value (only the shapes the engine can produce;
float printing is not modelled exactly, no claim depends on it). -/
def pyRepr : PyVal → String
  | .null => "None"
  | .bool b => if b then "True" else "False"
  | .int n => toString n
  | .rat q => toString q
  | .str s => "'" ++ s ++ "'"
  | .list l => "[" ++ pyReprSeq l ++ "]"
  | .dict d => "\x7b" ++ pyReprKvs d ++ "\x7d"

def pyReprSeq : List PyVal → String
  | [] => ""
  | [v] => pyRepr v
  | v :: rest => pyRepr v ++ ", " ++ pyReprSeq rest

def pyReprKvs : List (String × PyVal) → String
  | [] => ""
  | [(k, v)] => "'" ++ k ++ "': " ++ pyRepr v
  | (k, v) :: rest => "'" ++ k ++ "': " ++ pyRepr v ++ ", " ++ pyReprKvs rest
end

/-- Python `str()` of a value: identity on strings, `repr`-like otherwise. -/
def pyStr : PyVal → String
  | .str s => s
  | v => pyRepr v

/-- The whitespace characters stripped by Python `str.strip()`
(ASCII subset; no claim uses exotic unicode whitespace). -/
def isPySpace (c : Char) : Bool :=
  c = ' ' || c = '\t' || c = '\n' || c = '\x0b' || c = '\x0c' || c = '\r'

/-- Python `str.strip()` on a character list. -/
def pyStrip (cs : List Char) : List Char :=
  ((cs.dropWhile isPySpace).reverse.dropWhile isPySpace).reverse

/-- Python `s.split(sep)` for a one-character separator (the engine only
splits on `'.'`): `"".split('.') == ['']`, `"a..b".split('.') == ["a","","b"]`. -/
def splitOnChar (sep : Char) : List Char → List (List Char)
  | [] => [[]]
  | c :: cs =>
      if c = sep then [] :: splitOnChar sep cs
      else
        match splitOnChar sep cs with
        | [] => [[c]]
        | g :: gs => (c :: g) :: gs

/-! ## VariableReplacer (template substitution) -/

/-- The dot-path walk in `VariableReplacer.replace`: start from the context,
descend only while the current value is a dict containing the segment. -/
def walkSegs : List (List Char) → PyVal → Option PyVal
  | [], v => some v
  | k :: rest, .dict kvs =>
      match pyLookup kvs (String.mk k) with
      | some v => walkSegs rest v
      | Option.none => Option.none
  | _ :: _, _ => Option.none

/-- Lookup of one `var_path` (already stripped) against the context. -/
def lookupPath (ctx : PyVal) (path : List Char) : Option PyVal :=
  walkSegs (splitOnChar '.' path) ctx

/-- Matching of `[^\x7d]*\x7d\x7d` at the current position: consume the
maximal run of non-`\x7d` characters, then require two closing braces.
Returns the run and the remainder after the braces. -/
def grabInner : List Char → Option (List Char × List Char)
  | [] => Option.none
  | c :: cs =>
      if c = '\x7d' then
        match cs with
        | '\x7d' :: rest => some ([], rest)
        | _ => Option.none
      else
        match grabInner cs with
        | some (run, rest) => some (c :: run, rest)
        | Option.none => Option.none

/-- Matching of the regex `\x7b\x7b([^\x7d]+)\x7d\x7d` right after its two
opening braces: as `grabInner`, but the inner group must be nonempty. -/
def grabVar (cs : List Char) : Option (List Char × List Char) :=
  match grabInner cs with
  | some ([], _) => Option.none
  | some (run, rest) => some (run, rest)
  | Option.none => Option.none

/-- The body of `re.sub(r'\x7b\x7b([^\x7d]+)\x7d\x7d', replacer, text)`:
scan left to right; at each match, strip the inner group, look it up as a
dot path, and emit `str(value)` on success or the whole match verbatim on
failure; on a failed match attempt advance one character.  The fuel is
spent once per emitted character or attempted match; `replaceStr` supplies
`length + 1`, which `replCharsF_fuel` proves is never exhausted. -/
def replCharsF (ctx : PyVal) : Nat → List Char → List Char
  | 0, cs => cs
  | _ + 1, [] => []
  | fuel + 1, c :: rest =>
      if c = '\x7b' then
        match rest with
        | c2 :: rest2 =>
            if c2 = '\x7b' then
              match grabVar rest2 with
              | some (inner, rest') =>
                  match lookupPath ctx (pyStrip inner) with
                  | some v => (pyStr v).data ++ replCharsF ctx fuel rest'
                  | Option.none =>
                      '\x7b' :: '\x7b' ::
                        (inner ++ '\x7d' :: '\x7d' :: replCharsF ctx fuel rest')
              | Option.none => '\x7b' :: replCharsF ctx fuel ('\x7b' :: rest2)
            else c :: replCharsF ctx fuel rest
        | [] => [c]
      else c :: replCharsF ctx fuel rest

/-- `VariableReplacer.replace` restricted to an actual string argument. -/
def replaceStr (text : String) (ctx : PyVal) : String :=
  String.mk (replCharsF ctx (text.data.length + 1) text.data)

/-- `VariableReplacer.replace`: non-strings pass through unchanged. -/
def replaceVal (text : PyVal) (ctx : PyVal) : PyVal :=
  match text with
  | .str s => .str (replaceStr s ctx)
  | v => v

mutual
/-- `VariableReplacer.replace_dict`: recursively substitute every string
member of a dict; list members are mapped element-wise (strings
substituted, dicts recursed, everything else unchanged — nested lists are
not recursed into, matching the source). -/
def replaceKvs : List (String × PyVal) → PyVal → List (String × PyVal)
  | [], _ => []
  | (k, .str s) :: rest, ctx => (k, .str (replaceStr s ctx)) :: replaceKvs rest ctx
  | (k, .dict kvs) :: rest, ctx => (k, .dict (replaceKvs kvs ctx)) :: replaceKvs rest ctx
  | (k, .list items) :: rest, ctx => (k, .list (replaceItems items ctx)) :: replaceKvs rest ctx
  | (k, v) :: rest, ctx => (k, v) :: replaceKvs rest ctx

def replaceItems : List PyVal → PyVal → List PyVal
  | [], _ => []
  | .str s :: rest, ctx => .str (replaceStr s ctx) :: replaceItems rest ctx
  | .dict kvs :: rest, ctx => .dict (replaceKvs kvs ctx) :: replaceItems rest ctx
  | v :: rest, ctx => v :: replaceItems rest ctx
end

/-! ## Data model (`app/models/workflow.py`) -/

/-- `ExecutionStatus`. -/
inductive ExecStatus where
  | PENDING | RUNNING | COMPLETED | FAILED | CANCELLED
deriving DecidableEq

/-- One node of a workflow definition.  The source stores nodes as JSON
dicts `{"id", "type", "data": {"label", "config"}}`; the claims only
exercise well-shaped nodes, so the shape is a structure. -/
structure Node where
  id : String
  ntype : String
  label : Option String := Option.none
  config : List (String × PyVal) := []

/-- One edge of a workflow definition. -/
structure Edge where
  source : String
  target : String

/-- A workflow definition document. -/
structure WorkflowDef where
  nodes : List Node
  edges : List Edge

/-- The `Workflow` record fields the engine touches.  A `definition` of
`Option.none` models a missing/empty definition document (falsy in Python). -/
structure WorkflowRec where
  definition : Option WorkflowDef
  executionCount : Int
  successCount : Int

/-- A value stored in `context["nodes"]`.  Every handler returns a fresh
JSON-like value except `_execute_end_node`, which returns the live
`context` dict itself; `context["nodes"][node_id] = output` then stores
that reference back into the context, so the stored output is the (now
self-referential) context object, not a finite value.  `.ctxSelf` is that
reference. -/
inductive NodeOut where
  | val : PyVal → NodeOut
  | ctxSelf : NodeOut

/-- The live execution context object `{"input": ..., "nodes": {...}}`:
`input` and all `.val` outputs are finite values, while a `.ctxSelf`
output is the context object itself (the cycle created when an `end`
node's output is stored). -/
structure CtxG where
  input : PyVal
  nodeOuts : List (String × NodeOut)

/-- Key lookup in `context["nodes"]` (CPython dict lookup on the stored
outputs). -/
def lookupOut : List (String × NodeOut) → String → Option NodeOut
  | [], _ => Option.none
  | (k, v) :: rest, key => if k = key then some v else lookupOut rest key

/-- The `WorkflowExecution` record fields the engine touches.  `context`
and `outputData` hold the live (possibly self-referential) object graph:
`output_data = context["nodes"]` is the `nodeOuts` list interpreted
against the stored context. -/
structure ExecRecord where
  status : ExecStatus
  startedAt : Option Nat
  completedAt : Option Nat
  durationSeconds : Option Int
  context : Option CtxG
  outputData : Option (List (String × NodeOut))
  errorMessage : Option String
  errorNodeId : Option String

/-- One `WorkflowExecutionLog` row. -/
structure LogEntry where
  nodeId : String
  nodeName : String
  nodeType : String
  level : String
  message : String
  outputData : Option NodeOut

/-! ## WorkflowValidator -/

/-- Insert an id if not already present (first-occurrence order), the way
a CPython dict comprehension deduplicates keys. -/
def insertNew (acc : List String) (x : String) : List String :=
  if x ∈ acc then acc else acc ++ [x]

/-- The key list of `{node.get("id"): ... for node in nodes}`. -/
def idList (nodes : List Node) : List String :=
  (nodes.map Node.id).foldl insertNew []

/-- The validator's adjacency map: targets are appended for every edge
whose source is a known node id (the validator does not check the target
here; `adj.get(...)` defaults to `[]` for unknown keys). -/
def adjV (nodes : List Node) (edges : List Edge) : String → List String :=
  edges.foldl
    (fun m e =>
      if e.source ∈ idList nodes then
        fun x => if x = e.source then m e.source ++ [e.target] else m x
      else m)
    (fun _ => [])

mutual
/-- The recursive `has_cycle` DFS of `WorkflowValidator._is_dag`: marks the
node visited and on the recursion stack, then scans its neighbours.  One
unit of fuel is spent per DFS entry and per neighbour examined; a run
enters each node at most once (it must be unvisited) and examines each
adjacency entry at most once, so the `|nodes| + 2|edges| + 2` supplied by
`_is_dag` can never run out (only concrete instances of the validator are
ever evaluated; no theorem quantifies over this DFS). -/
def dfsCycle (adj : String → List String) :
    Nat → String → List String → List String → (Bool × List String)
  | 0, _, visited, _ => (false, visited)
  | fuel + 1, v, visited, stack =>
      dfsNbrs adj fuel (adj v) (v :: visited) (v :: stack)

def dfsNbrs (adj : String → List String) :
    Nat → List String → List String → List String → (Bool × List String)
  | _, [], visited, _ => (false, visited)
  | 0, _ :: _, visited, _ => (false, visited)
  | fuel + 1, n :: rest, visited, stack =>
      if n ∉ visited then
        match dfsCycle adj fuel n visited stack with
        | (true, vis') => (true, vis')
        | (false, vis') => dfsNbrs adj fuel rest vis' stack
      else if n ∈ stack then (true, visited)
      else dfsNbrs adj fuel rest visited stack
end

/-- The outer loop of `_is_dag`, threading the shared `visited` set. -/
def isDagLoop (adj : String → List String) (fuel : Nat) :
    List Node → List String → Bool
  | [], _ => true
  | n :: rest, visited =>
      if n.id ∈ visited then isDagLoop adj fuel rest visited
      else
        match dfsCycle adj fuel n.id visited [] with
        | (true, _) => false
        | (false, vis') => isDagLoop adj fuel rest vis'

/-- `WorkflowValidator._is_dag`. -/
def isDag (nodes : List Node) (edges : List Edge) : Bool :=
  isDagLoop (adjV nodes edges) (nodes.length + 2 * edges.length + 2) nodes []

/-- One BFS step of `_all_reachable`: enqueue and mark the unvisited
neighbours, in adjacency order. -/
def bfsEnqueue : List String → List String → List String → (List String × List String)
  | [], queue, visited => (queue, visited)
  | n :: rest, queue, visited =>
      if n ∉ visited then bfsEnqueue rest (queue ++ [n]) (visited ++ [n])
      else bfsEnqueue rest queue visited

/-- The BFS while-loop of `_all_reachable` (fuel bounds iterations; each
iteration either shortens the queue or enqueues ids never seen before, so
`|nodes| + |edges| + 2` is plenty for the concrete instances evaluated). -/
def bfsLoop (adj : String → List String) :
    Nat → List String → List String → List String
  | 0, _, visited => visited
  | _ + 1, [], visited => visited
  | fuel + 1, cur :: rest, visited =>
      let (q', vis') := bfsEnqueue (adj cur) rest visited
      bfsLoop adj fuel q' vis'

/-- `WorkflowValidator._all_reachable`: BFS from the start id, then compare
the visited count with `len(nodes)` (which counts duplicate ids twice). -/
def allReachable (nodes : List Node) (edges : List Edge) (startId : String) : Bool :=
  (bfsLoop (adjV nodes edges) (nodes.length + edges.length + 2) [startId] [startId]).length
    = nodes.length

/-- `WorkflowValidator.validate` (the definition has already been checked
to be non-falsy by the caller).  Returns `(is_valid, errors, warnings)`
with the errors in the order the source appends them. -/
def validate (d : WorkflowDef) : Bool × List String × List String :=
  if d.nodes.isEmpty then (false, ["工作流必须至少包含一个节点"], [])
  else
    let startNodes := d.nodes.filter (fun n => n.ntype = "start")
    let errStart :=
      if startNodes.length = 0 then ["工作流必须有一个开始节点"]
      else if 1 < startNodes.length then ["工作流只能有一个开始节点"]
      else []
    let warnEnd :=
      if (d.nodes.filter (fun n => n.ntype = "end")).length = 0 then ["建议添加结束节点"]
      else []
    let nodeIds := d.nodes.map Node.id
    let errDup := if nodeIds.Nodup then [] else ["节点 ID 必须唯一"]
    let errEdges :=
      d.edges.foldl
        (fun acc e =>
          (acc ++ (if e.source ∈ nodeIds then [] else ["边的源节点 " ++ e.source ++ " 不存在"]))
            ++ (if e.target ∈ nodeIds then [] else ["边的目标节点 " ++ e.target ++ " 不存在"]))
        []
    let errCycle :=
      if isDag d.nodes d.edges then [] else ["工作流不能包含循环依赖（必须是有向无环图）"]
    let warnReach :=
      match startNodes with
      | [] => []
      | sn :: _ =>
          if allReachable d.nodes d.edges sn.id then [] else ["存在无法从开始节点到达的节点"]
    let errors := errStart ++ errDup ++ errEdges ++ errCycle
    (errors.isEmpty, errors, warnEnd ++ warnReach)

/-- `WorkflowEngine.validate_workflow`: a falsy `definition` short-circuits. -/
def validateWorkflow (wf : WorkflowRec) : Bool × List String × List String :=
  match wf.definition with
  | Option.none => (false, ["工作流定义为空"], [])
  | some d => validate d

/-! ## WorkflowEngine._topological_sort (Kahn's algorithm) -/

/-- Adjacency map built by `_topological_sort`: unlike the validator's, an
edge contributes only when both endpoints are known node ids. -/
def adjT (ids : List String) (edges : List Edge) : String → List String :=
  edges.foldl
    (fun m e =>
      if e.source ∈ ids ∧ e.target ∈ ids then
        fun x => if x = e.source then m e.source ++ [e.target] else m x
      else m)
    (fun _ => [])

/-- The in-degree table of `_topological_sort` (total function; ids not in
the table are never queried with a nonzero value). -/
def indeg0 (ids : List String) (edges : List Edge) : String → Int :=
  edges.foldl
    (fun m e =>
      if e.source ∈ ids ∧ e.target ∈ ids then
        fun x => if x = e.target then m e.target + 1 else m x
      else m)
    (fun _ => 0)

/-- State of the Kahn while-loop. -/
structure KState where
  queue : List String
  indeg : String → Int
  result : List String

/-- Processing of `for neighbor in adj[current]`: decrement each
neighbour's in-degree, enqueueing it when the count reaches exactly 0. -/
def processNbrs : List String → (String → Int) → List String → ((String → Int) × List String)
  | [], d, q => (d, q)
  | n :: rest, d, q =>
      let dn := d n - 1
      processNbrs rest (fun x => if x = n then dn else d x) (if dn = 0 then q ++ [n] else q)

/-- One iteration of the while-loop: pop the queue head, append it to the
result, process its neighbours. -/
def kahnStep (adj : String → List String) (st : KState) (h : String) (t : List String) :
    KState :=
  let dq := processNbrs (adj h) st.indeg t
  ⟨dq.2, dq.1, st.result ++ [h]⟩

/-- The while-loop with fuel (`kahnRun_queue_empty` below proves the fuel
supplied by `topologicalSort` never runs out). -/
def kahnRun (adj : String → List String) : Nat → KState → KState
  | 0, st => st
  | fuel + 1, st =>
      match st.queue with
      | [] => st
      | h :: t => kahnRun adj fuel (kahnStep adj st h t)

/-- `WorkflowEngine._topological_sort`. -/
def topologicalSort (nodes : List Node) (edges : List Edge) : List String :=
  let ids := idList nodes
  let adj := adjT ids edges
  let d0 := indeg0 ids edges
  (kahnRun adj (ids.length + edges.length + 1)
    ⟨ids.filter (fun v => d0 v = 0), d0, []⟩).result

/-! ## A model of `json.loads` (strict JSON; `NaN`/`Infinity` and unicode
surrogate pairing are not modelled — no claim exercises them).  Failure
(`Option.none`) models `json.JSONDecodeError`. -/

/-- JSON inter-token whitespace. -/
def skipWs (cs : List Char) : List Char :=
  cs.dropWhile (fun c => c = ' ' || c = '\t' || c = '\n' || c = '\r')

/-- Hex digit value. -/
def hexVal (c : Char) : Option Nat :=
  if '0' ≤ c ∧ c ≤ '9' then some (c.toNat - 48)
  else if 'a' ≤ c ∧ c ≤ 'f' then some (c.toNat - 87)
  else if 'A' ≤ c ∧ c ≤ 'F' then some (c.toNat - 55)
  else Option.none

/-- Scan a JSON string body after the opening quote; returns the decoded
characters and the remainder after the closing quote. -/
def jsonStringChars : List Char → Option (List Char × List Char)
  | [] => Option.none
  | c :: rest =>
      if c = '"' then some ([], rest)
      else if c = '\\' then
        match rest with
        | [] => Option.none
        | e :: rest2 =>
            if e = 'u' then
              match rest2 with
              | h1 :: h2 :: h3 :: h4 :: rest3 =>
                  match hexVal h1, hexVal h2, hexVal h3, hexVal h4 with
                  | some a, some b, some c', some d =>
                      match jsonStringChars rest3 with
                      | some (s, r) =>
                          some (Char.ofNat (((a * 16 + b) * 16 + c') * 16 + d) :: s, r)
                      | Option.none => Option.none
                  | _, _, _, _ => Option.none
              | _ => Option.none
            else
              match
                (if e = '"' then some '"'
                 else if e = '\\' then some '\\'
                 else if e = '/' then some '/'
                 else if e = 'b' then some '\x08'
                 else if e = 'f' then some '\x0c'
                 else if e = 'n' then some '\n'
                 else if e = 'r' then some '\r'
                 else if e = 't' then some '\t'
                 else Option.none) with
              | some d =>
                  match jsonStringChars rest2 with
                  | some (s, r) => some (d :: s, r)
                  | Option.none => Option.none
              | Option.none => Option.none
      else if c.toNat < 32 then Option.none
      else
        match jsonStringChars rest with
        | some (s, r) => some (c :: s, r)
        | Option.none => Option.none

/-- Decimal value of a digit run. -/
def digitsToNat (ds : List Char) : Nat :=
  ds.foldl (fun a c => a * 10 + (c.toNat - 48)) 0

/-- Parse a JSON number starting at the current position.  Integers (no
fraction, no exponent) become `PyVal.int`, anything else becomes the exact
rational the decimal literal denotes (Python would round it to the nearest
IEEE double; no claim depends on that rounding). -/
def jsonNumber (cs : List Char) : Option (PyVal × List Char) :=
  let (neg, cs1) := match cs with
    | '-' :: r => (true, r)
    | _ => (false, cs)
  let ds := cs1.takeWhile Char.isDigit
  let cs2 := cs1.dropWhile Char.isDigit
  if ds.isEmpty then Option.none
  else if 1 < ds.length ∧ ds.head? = some '0' then Option.none
  else
    let ipart : ℚ := (digitsToNat ds : ℚ)
    let fracStep : Option (ℚ × List Char) := match cs2 with
      | '.' :: r =>
          let fs := r.takeWhile Char.isDigit
          if fs.isEmpty then Option.none
          else some ((digitsToNat fs : ℚ) / ((10 : ℚ) ^ fs.length), r.dropWhile Char.isDigit)
      | _ => some (0, cs2)
    match fracStep with
    | Option.none => Option.none
    | some (fpart, cs3) =>
      let hasFrac := decide (cs3 ≠ cs2)
      let expStep : Option (Option Int × List Char) := match cs3 with
        | 'e' :: r | 'E' :: r =>
            let (esign, r1) := match r with
              | '+' :: rr => ((1 : Int), rr)
              | '-' :: rr => ((-1 : Int), rr)
              | _ => ((1 : Int), r)
            let es := r1.takeWhile Char.isDigit
            if es.isEmpty then Option.none
            else some (some (esign * (digitsToNat es : Int)), r1.dropWhile Char.isDigit)
        | _ => some (Option.none, cs3)
      match expStep with
      | Option.none => Option.none
      | some (expv, cs4) =>
          let signq : ℚ := if neg then -1 else 1
          match expv with
          | some e =>
              some (.rat (signq * (ipart + fpart) * (10 : ℚ) ^ e), cs4)
          | Option.none =>
              if hasFrac then some (.rat (signq * (ipart + fpart)), cs4)
              else some (.int ((if neg then -1 else 1) * (digitsToNat ds : Int)), cs4)

mutual
/-- Parse one JSON value (fuelled; `jsonLoads` supplies enough). -/
def jsonVal : Nat → List Char → Option (PyVal × List Char)
  | 0, _ => Option.none
  | fuel + 1, cs =>
      match skipWs cs with
      | [] => Option.none
      | c :: rest =>
          if c = '\x7b' then
            match skipWs rest with
            | '\x7d' :: rest' => some (.dict [], rest')
            | _ => jsonMembers fuel rest []
          else if c = '[' then
            match skipWs rest with
            | ']' :: rest' => some (.list [], rest')
            | _ => jsonElems fuel rest []
          else if c = '"' then
            match jsonStringChars rest with
            | some (s, r) => some (.str (String.mk s), r)
            | Option.none => Option.none
          else if c = 't' then
            match rest with
            | 'r' :: 'u' :: 'e' :: r => some (.bool true, r)
            | _ => Option.none
          else if c = 'f' then
            match rest with
            | 'a' :: 'l' :: 's' :: 'e' :: r => some (.bool false, r)
            | _ => Option.none
          else if c = 'n' then
            match rest with
            | 'u' :: 'l' :: 'l' :: r => some (.null, r)
            | _ => Option.none
          else jsonNumber (c :: rest)

/-- Parse the members of an object after its `\x7b` (duplicate keys: last
value wins at the first key's position, as in CPython). -/
def jsonMembers : Nat → List Char → List (String × PyVal) → Option (PyVal × List Char)
  | 0, _, _ => Option.none
  | fuel + 1, cs, acc =>
      match skipWs cs with
      | '"' :: rest =>
          match jsonStringChars rest with
          | some (k, rest1) =>
              (match skipWs rest1 with
               | ':' :: rest2 =>
                   match jsonVal fuel rest2 with
                   | some (v, rest3) =>
                       let acc' := pyDictSet acc (String.mk k) v
                       (match skipWs rest3 with
                        | ',' :: rest4 => jsonMembers fuel rest4 acc'
                        | '\x7d' :: rest4 => some (.dict acc', rest4)
                        | _ => Option.none)
                   | Option.none => Option.none
               | _ => Option.none)
          | Option.none => Option.none
      | _ => Option.none

/-- Parse the elements of an array after its `[`. -/
def jsonElems : Nat → List Char → List PyVal → Option (PyVal × List Char)
  | 0, _, _ => Option.none
  | fuel + 1, cs, acc =>
      match jsonVal fuel cs with
      | some (v, rest) =>
          (match skipWs rest with
           | ',' :: rest2 => jsonElems fuel rest2 (acc ++ [v])
           | ']' :: rest2 => some (.list (acc ++ [v]), rest2)
           | _ => Option.none)
      | Option.none => Option.none
end

/-- `json.loads` on a string: one value, nothing but whitespace after it. -/
def jsonLoads (s : String) : Option PyVal :=
  match jsonVal (s.data.length + 1) s.data with
  | some (v, rest) => if (skipWs rest).isEmpty then some v else Option.none
  | Option.none => Option.none

/-! ## Helpers for the string node's operations -/

/-- `str.replace` scan for a nonempty pattern (fuelled by length). -/
def replOcc (pat rep : List Char) : Nat → List Char → List Char
  | 0, cs => cs
  | _ + 1, [] => []
  | fuel + 1, c :: cs =>
      if pat.isPrefixOf (c :: cs) then rep ++ replOcc pat rep fuel ((c :: cs).drop pat.length)
      else c :: replOcc pat rep fuel cs

/-- `s.replace("", rep)` inserts `rep` before every character and at the
end. -/
def emptyPatIns (rep : List Char) : List Char → List Char
  | [] => rep
  | c :: cs => rep ++ c :: emptyPatIns rep cs

/-- Python `str.replace` (all occurrences). -/
def pyStrReplace (s pat rep : String) : String :=
  if pat.data.isEmpty then String.mk (emptyPatIns rep.data s.data)
  else String.mk (replOcc pat.data rep.data (s.data.length + 1) s.data)

/-- Python `s.split(sep)` for a nonempty separator string. -/
def splitOnList (sep : List Char) : Nat → List Char → List (List Char)
  | 0, cs => [cs]
  | _ + 1, [] => [[]]
  | fuel + 1, c :: cs =>
      if sep.isPrefixOf (c :: cs) then [] :: splitOnList sep fuel ((c :: cs).drop sep.length)
      else
        match splitOnList sep fuel cs with
        | [] => [[c]]
        | g :: gs => (c :: g) :: gs

/-- Normalisation of one Python slice index against a length. -/
def pySliceIdx (len : Nat) (i : Int) : Nat :=
  if i < 0 then (max 0 ((len : Int) + i)).toNat else (min i (len : Int)).toNat

/-- Python `cs[a:b]` with optional bounds. -/
def pySlice (cs : List Char) (a b : Option Int) : List Char :=
  let len := cs.length
  let ia := match a with
    | some i => pySliceIdx len i
    | Option.none => 0
  let ib := match b with
    | some i => pySliceIdx len i
    | Option.none => len
  (cs.take ib).drop ia

/-- Python `l[:k]` on a list (negative `k` counts from the end). -/
def pySliceTo {α : Type} (l : List α) (k : Int) : List α :=
  if k < 0 then l.take ((l.length : Int) + k).toNat else l.take k.toNat

/-- The walk of `json_extract` over the split dot path: descend through
dicts by key and through lists by an all-digit index; any other situation
sets the result to `None` and breaks — except an out-of-range list index,
whose `IndexError` is not caught by the handler (it only catches
`json.JSONDecodeError`). -/
def jsonWalk : List (List Char) → PyVal → Except String PyVal
  | [], v => .ok v
  | k :: rest, v =>
      match v with
      | .dict kvs =>
          match pyLookup kvs (String.mk k) with
          | some v' => jsonWalk rest v'
          | Option.none => .ok .null
      | .list items =>
          if !k.isEmpty && k.all Char.isDigit then
            match items.get? (digitsToNat k) with
            | some v' => jsonWalk rest v'
            | Option.none => .error "list index out of range"
          else .ok .null
      | _ => .ok .null

/-- First match of `re.search(r'\x7b[^\x7b\x7d]*\x7d', content)`: the
first `\x7b` followed by a brace-free run and a `\x7d`; returns the whole
matched text. -/
def scanBrace : List Char → Option (List Char)
  | [] => Option.none
  | c :: rest =>
      if c = '\x7b' then
        let run := rest.takeWhile (fun d => !(d = '\x7b' || d = '\x7d'))
        match rest.dropWhile (fun d => !(d = '\x7b' || d = '\x7d')) with
        | '\x7d' :: _ => some ('\x7b' :: (run ++ ['\x7d']))
        | _ => scanBrace rest
      else scanBrace rest

/-! ## External collaborators and the execution context -/

/-- An `LLMModel` row (opaque to the engine; only threaded through). -/
structure Model where
  row : PyVal

/-- A `KnowledgeBase` row. -/
structure KB where
  kbid : PyVal

/-- A `Document` row. -/
structure Doc where
  title : String

/-- A `DocumentChunk` row of the queried knowledge base. -/
structure Chunk where
  cid : Int
  documentId : Int
  content : String
  chunkIndex : Int
  embedding : Option (List ℚ)

/-- A `requests` response: `jsonBody = Option.none` models `response.json()`
raising, in which case the handler falls back to `response.text`. -/
structure HttpResp where
  statusCode : Int
  headers : List (String × PyVal)
  jsonBody : Option PyVal
  text : String

/-- The external collaborators: LLM service, HTTP client, embedding
service, the database rows behind `db.query`, the regex engine used by the
`extract` operation, and the wall clock.  `Except.error` models a raised
exception whose `str` is the payload. -/
structure Env where
  getModel : PyVal → Option Model
  llmChat : Model → PyVal → PyVal → PyVal → Except String PyVal
  httpSend : String → String → List (String × PyVal) →
    Option (List (String × PyVal)) → PyVal → Except String HttpResp
  getKB : PyVal → Option KB
  chunksFor : PyVal → List Chunk
  embedText : PyVal → List ℚ
  similarity : List ℚ → List ℚ → ℚ
  getDoc : Int → Option Doc
  reFindall : String → String → List PyVal
  startTime : Nat
  endTime : Nat

/-- The finite shape of the execution context
`{"input": ..., "nodes": {...}}` as a handler sees it for its template
lookups; the engine threads the live object graph (`CtxG`) and hands each
handler this view through `ctxOfG` below. -/
structure Ctx where
  input : PyVal
  nodeOuts : List (String × PyVal)

/-- The context as the Python dict the handlers see. -/
def Ctx.toPyVal (c : Ctx) : PyVal :=
  .dict [("input", c.input), ("nodes", .dict c.nodeOuts)]

mutual

/-- Size of a value; in particular an upper bound on the number of
dot-path segments any template string inside it can mention. -/
def pySize : PyVal → Nat
  | .str s => s.length + 1
  | .list xs => pySizeSeq xs + 1
  | .dict kvs => pySizeKvs kvs + 1
  | _ => 1

def pySizeSeq : List PyVal → Nat
  | [] => 0
  | x :: xs => pySize x + pySizeSeq xs

def pySizeKvs : List (String × PyVal) → Nat
  | [] => 0
  | (_, v) :: rest => pySize v + pySizeKvs rest

end

/-- The finite view of the live context against which a node's handler
resolves its templates.  A `.ctxSelf` entry (an `end` node's stored
output, which is the context object itself) is unfolded `fuel` times; the
engine picks `fuel` larger than the number of dot-path segments any
template in the node's config can have, so every lookup the handler can
actually perform resolves exactly as on the live object graph (each
traversal of the cycle consumes at least one path segment).  The one
behaviour the finite view does not capture is `str()` of a resolved value
that itself contains the live context — CPython renders the recursion
point as `{...}` — which no claim exercises. -/
def ctxViewF (input : PyVal) (outs : List (String × NodeOut)) : Nat → PyVal
  | 0 => .null
  | fuel + 1 =>
      .dict [("input", input),
             ("nodes", .dict (outs.map (fun p =>
               (p.1, match p.2 with
                     | .val v => v
                     | .ctxSelf => ctxViewF input outs fuel))))]

/-- The `Ctx` the engine hands a handler: the live context with every
stored self-reference unfolded `fuel` times. -/
def ctxOfG (g : CtxG) (fuel : Nat) : Ctx :=
  ⟨g.input, g.nodeOuts.map (fun p =>
    (p.1, match p.2 with
          | .val v => v
          | .ctxSelf => ctxViewF g.input g.nodeOuts fuel))⟩

/-- The unfolding depth the engine uses for a node: strictly more than
the number of path segments any template in this node's config can
mention. -/
def nodeFuel (node : Node) : Nat :=
  pySizeKvs node.config + 1

/-! ## Node handlers (`NodeExecutor`) -/

/-- `_execute_start_node`: returns `context.get("input", ...)`. -/
def executeStartNode (ctx : Ctx) : Except String PyVal :=
  .ok ctx.input

/-- `_execute_end_node`: `return context` — the result is the live
context object itself (not a copy), which the caller then stores back
into `context["nodes"][node_id]`, making the stored output
self-referential. -/
def executeEndNode (_ctx : Ctx) : Except String NodeOut :=
  .ok NodeOut.ctxSelf

/-- Python `.get(key, dflt)` where the receiver may not be a dict (in which
case `AttributeError` is raised). -/
def pyGetAttrE (v : PyVal) (key : String) (dflt : PyVal) : Except String PyVal :=
  match v with
  | .dict kvs => .ok ((pyLookup kvs key).getD dflt)
  | _ => .error "AttributeError: get"

/-- Python `v[0]` on the modelled shapes. -/
def pyIndex0 (v : PyVal) : Except String PyVal :=
  match v with
  | .list [] => .error "list index out of range"
  | .list (x :: _) => .ok x
  | _ => .error "TypeError: object is not subscriptable"

/-- `response.get("choices", [{}])[0].get("message", {}).get("content", "")`. -/
def extractContent (resp : PyVal) : Except String PyVal := do
  let choices ← pyGetAttrE resp "choices" (.list [.dict []])
  let c0 ← pyIndex0 choices
  let msg ← pyGetAttrE c0 "message" (.dict [])
  pyGetAttrE msg "content" (.str "")

/-- `_execute_llm_node`. -/
def executeLlmNode (env : Env) (node : Node) (ctx : Ctx) : Except String PyVal := do
  let config := node.config
  let modelId := cfgGet config "model_id" .null
  let prompt := replaceVal (cfgGet config "prompt" (.str "")) ctx.toPyVal
  let sysPrompt := replaceVal (cfgGet config "system_prompt" (.str "")) ctx.toPyVal
  let temperature := cfgGet config "temperature" (.rat (7 / 10))
  let maxTokens := cfgGet config "max_tokens" (.int 2000)
  if ¬ pyTruthy modelId then throw "LLM 节点必须配置 model_id" else
  match env.getModel modelId with
  | Option.none => throw ("未找到模型 ID: " ++ pyStr modelId)
  | some model =>
    let msgs :=
      (if pyTruthy sysPrompt then
        [PyVal.dict [("role", .str "system"), ("content", sysPrompt)]]
       else []) ++ [PyVal.dict [("role", .str "user"), ("content", prompt)]]
    match env.llmChat model (.list msgs) temperature maxTokens with
    | .error e => throw e
    | .ok resp => do
        let content ← extractContent resp
        return .dict [("content", content), ("raw_response", resp)]

/-- Python `.upper()` where the receiver may not be a string. -/
def pyUpperE (v : PyVal) : Except String String :=
  match v with
  | .str s => .ok s.toUpper
  | _ => .error "AttributeError: upper"

/-- Python `.items()` receiver check used by `replace_dict` call sites. -/
def asDictE (v : PyVal) : Except String (List (String × PyVal)) :=
  match v with
  | .dict kvs => .ok kvs
  | _ => .error "AttributeError: items"

/-- `_execute_http_node`.  The request itself is the `httpSend`
collaborator; its `Except.error` models a `requests.RequestException`. -/
def executeHttpNode (env : Env) (node : Node) (ctx : Ctx) : Except String PyVal := do
  let config := node.config
  let method ← pyUpperE (cfgGet config "method" (.str "GET"))
  let headers0 ← asDictE (cfgGet config "headers" (.dict []))
  let body0 ← asDictE (cfgGet config "body" (.dict []))
  let timeout := cfgGet config "timeout" (.int 30)
  let url := replaceVal (cfgGet config "url" (.str "")) ctx.toPyVal
  let headers := replaceKvs headers0 ctx.toPyVal
  let body := replaceKvs body0 ctx.toPyVal
  if ¬ pyTruthy url then throw "HTTP 节点必须配置 URL" else
  match env.httpSend method (pyStr url) headers
      (if method = "GET" ∨ method = "DELETE" then Option.none else some body) timeout with
  | .error e => throw ("HTTP 请求失败: " ++ e)
  | .ok r =>
      let bodyData := match r.jsonBody with
        | some j => j
        | Option.none => .str r.text
      return .dict [("status_code", .int r.statusCode), ("headers", .dict r.headers),
        ("body", bodyData), ("success", .bool (r.statusCode < 400))]

/-! ## Knowledge node -/

/-- One entry of the knowledge node's `results` list. -/
structure KResult where
  chunkId : Int
  documentId : Int
  documentTitle : String
  content : String
  similarity : ℚ
  chunkIndex : Int

/-- Python `round(x, 4)` (round-half-even differs from Mathlib's `round`
only at exact half-way points, which no claim exercises). -/
def round4 (q : ℚ) : ℚ :=
  ((round (q * 10000) : ℤ) : ℚ) / 10000

/-- The `:.0%` rendering of a similarity (same half-way caveat). -/
def pctFmt (q : ℚ) : String :=
  toString (round (q * 100) : ℤ) ++ "%"

/-- A numeric Python value as a rational (Python `bool` is an `int`
subtype); `Option.none` means a float comparison would raise `TypeError`. -/
def pyToRat : PyVal → Option ℚ
  | .int n => some (n : ℚ)
  | .rat q => some q
  | .bool b => some (if b then 1 else 0)
  | _ => Option.none

/-- `doc.title if doc else "未知文档"`. -/
def kTitle (env : Env) (documentId : Int) : String :=
  match env.getDoc documentId with
  | some d => d.title
  | Option.none => "未知文档"

/-- The result dict appended for one chunk at or above the threshold. -/
def mkKResult (env : Env) (c : Chunk) (sim : ℚ) : KResult :=
  ⟨c.cid, c.documentId, kTitle env c.documentId, c.content, round4 sim, c.chunkIndex⟩

/-- The chunk-scoring loop of `_execute_knowledge_node`: skip chunks with
falsy vectors, score the rest, keep those at or above the threshold.  A
non-numeric threshold raises `TypeError` at the first comparison. -/
def kChunkLoop (env : Env) (qv : List ℚ) (threshV : PyVal) :
    List Chunk → Except String (List KResult)
  | [] => .ok []
  | c :: rest =>
      match c.embedding with
      | Option.none => kChunkLoop env qv threshV rest
      | some ev =>
          if ev.isEmpty then kChunkLoop env qv threshV rest
          else
            match pyToRat threshV with
            | Option.none => .error "TypeError: comparison not supported between instances"
            | some t =>
                if t ≤ env.similarity qv ev then
                  match kChunkLoop env qv threshV rest with
                  | .ok rs => .ok (mkKResult env c (env.similarity qv ev) :: rs)
                  | .error e => .error e
                else kChunkLoop env qv threshV rest

/-- The sort key relation of `results.sort(key=..., reverse=True)`:
descending by the stored (rounded) similarity; the sort is stable. -/
def kSortRel (a b : KResult) : Prop :=
  b.similarity ≤ a.similarity

instance : DecidableRel kSortRel :=
  fun a b => inferInstanceAs (Decidable (b.similarity ≤ a.similarity))

/-- One `results` entry as the Python dict the handler builds. -/
def kResultPy (r : KResult) : PyVal :=
  .dict [("chunk_id", .int r.chunkId), ("document_id", .int r.documentId),
         ("document_title", .str r.documentTitle), ("content", .str r.content),
         ("similarity", .rat r.similarity), ("chunk_index", .int r.chunkIndex)]

/-- The numbered citation lines of the knowledge context block. -/
def ctxParts : Nat → List KResult → List String
  | _, [] => []
  | idx, r :: rest =>
      ("[" ++ toString idx ++ "] 来自《" ++ r.documentTitle ++ "》(相似度:"
        ++ pctFmt r.similarity ++ "):\n" ++ r.content) :: ctxParts (idx + 1) rest

/-- `context_text`: empty when there are no results. -/
def contextText (rs : List KResult) : String :=
  if rs.isEmpty then "" else String.intercalate "\n\n" (ctxParts 1 rs)

/-- `_execute_knowledge_node`. -/
def executeKnowledgeNode (env : Env) (node : Node) (ctx : Ctx) : Except String PyVal :=
  let config := node.config
  let kbId := cfgGet config "knowledge_base_id" .null
  let query := replaceVal (cfgGet config "query" (.str "")) ctx.toPyVal
  let topK := cfgGet config "top_k" (.int 5)
  let thresh := cfgGet config "similarity_threshold" (.rat (7 / 10))
  if ¬ pyTruthy kbId then .error "知识库检索节点必须配置 knowledge_base_id"
  else if ¬ pyTruthy query then .error "知识库检索节点必须配置查询内容"
  else
    match env.getKB kbId with
    | Option.none => .error ("未找到知识库 ID: " ++ pyStr kbId)
    | some kb =>
        let qv := env.embedText query
        if qv.isEmpty then .error "查询文本向量化失败"
        else
          let chunks := (env.chunksFor kb.kbid).filter (fun c => c.embedding.isSome)
          match kChunkLoop env qv thresh chunks with
          | .error e => .error e
          | .ok results =>
              let sorted := List.insertionSort kSortRel results
              match topK with
              | .int k =>
                  let top := pySliceTo sorted k
                  .ok (.dict [("results", .list (top.map kResultPy)),
                    ("count", .int top.length),
                    ("context_text", .str (contextText top)), ("query", query)])
              | .bool b =>
                  let top := pySliceTo sorted (if b then 1 else 0)
                  .ok (.dict [("results", .list (top.map kResultPy)),
                    ("count", .int top.length),
                    ("context_text", .str (contextText top)), ("query", query)])
              | _ => .error "TypeError: slice indices must be integers or None"

/-! ## Intent node -/

/-- `', '.join(keywords)`: every member must be a string. -/
def pyJoinE (sep : String) : List PyVal → Except String (List String)
  | [] => .ok []
  | .str s :: rest => (pyJoinE sep rest).map (fun ss => s :: ss)
  | _ :: _ => .error "TypeError: sequence item: expected str instance"

/-- One line of the intent description block:
`- name: description (关键词: kw1, kw2)`; a missing `name` raises
`KeyError`, a non-dict entry raises `TypeError`. -/
def intentDescLine (v : PyVal) : Except String String :=
  match v with
  | .dict kvs =>
      match pyLookup kvs "name" with
      | Option.none => .error "KeyError: name"
      | some nm => do
          let desc := (pyLookup kvs "description").getD (.str "")
          match (pyLookup kvs "keywords").getD (.list []) with
          | .list kws => do
              let ss ← pyJoinE ", " kws
              return "- " ++ pyStr nm ++ ": " ++ pyStr desc ++ " (关键词: "
                ++ String.intercalate ", " ss ++ ")"
          | _ => throw "TypeError: can only join an iterable"
  | _ => .error "TypeError: intent entry is not a dict"

/-- The full `intent_descriptions` block. -/
def intentDescs : List PyVal → Except String (List String)
  | [] => .ok []
  | v :: rest => do
      let l ← intentDescLine v
      let ls ← intentDescs rest
      return l :: ls

/-- The fixed system prompt of the intent node. -/
def intentSystemPrompt : String :=
  "你是一个意图识别助手。请根据用户输入，从给定的意图列表中识别出最匹配的意图。\n只返回JSON格式的结果，包含以下字段：\n- intent: 识别到的意图名称\n- confidence: 置信度(0-1)\n- reason: 简短的识别理由"

/-- The user prompt of the intent node. -/
def intentUserPrompt (descs : String) (inputText : PyVal) : String :=
  "可选的意图列表：\n" ++ descs ++ "\n\n用户输入：\n" ++ pyStr inputText
    ++ "\n\n请识别用户的意图，返回JSON格式："

/-- The parse-and-fallback step of the intent node: extract the first
flat `\x7b...\x7d` from the reply, `json.loads` it, and degrade to the
`unknown` dict when there is no match or the JSON fails to parse. -/
def intentParse (content : String) : List (String × PyVal) :=
  match scanBrace content.data with
  | some jtxt =>
      (match jsonLoads (String.mk jtxt) with
       | some (.dict kvs) => kvs
       | _ =>
           [("intent", .str "unknown"), ("confidence", .int 0),
            ("reason", .str "JSON解析失败"), ("raw_response", .str content)])
  | Option.none =>
      [("intent", .str "unknown"), ("confidence", .int 0), ("reason", .str "无法解析响应")]

/-- `_execute_intent_node`. -/
def executeIntentNode (env : Env) (node : Node) (ctx : Ctx) : Except String PyVal :=
  let config := node.config
  let modelId := cfgGet config "model_id" .null
  let inputText := replaceVal (cfgGet config "input_text" (.str "")) ctx.toPyVal
  let intents := cfgGet config "intents" (.list [])
  if ¬ pyTruthy modelId then .error "意图识别节点必须配置 model_id"
  else if ¬ pyTruthy inputText then .error "意图识别节点必须配置输入文本"
  else if ¬ pyTruthy intents then .error "意图识别节点必须配置意图列表"
  else
    match env.getModel modelId with
    | Option.none => .error ("未找到模型 ID: " ++ pyStr modelId)
    | some model =>
        match intents with
        | .list intentList =>
            (match intentDescs intentList with
             | .error e => .error e
             | .ok descs =>
                 let userPrompt := intentUserPrompt (String.intercalate "\n" descs) inputText
                 let msgs := PyVal.list
                   [.dict [("role", .str "system"), ("content", .str intentSystemPrompt)],
                    .dict [("role", .str "user"), ("content", .str userPrompt)]]
                 match env.llmChat model msgs (.rat (1 / 10)) (.int 500) with
                 | .error e => .error e
                 | .ok resp =>
                     match extractContent resp with
                     | .error e => .error e
                     | .ok (.str content) =>
                         let result := intentParse content
                         .ok (.dict
                           [("intent", (pyLookup result "intent").getD (.str "unknown")),
                            ("confidence", (pyLookup result "confidence").getD (.int 0)),
                            ("reason", (pyLookup result "reason").getD (.str "")),
                            ("input_text", inputText), ("raw_response", .str content)])
                     | .ok _ => .error "TypeError: expected string or bytes-like object")
        | _ => .error "TypeError: not iterable"

/-! ## String node -/

/-- The `json_extract` core: parse `input_text`, walk the dot path.
A `json.JSONDecodeError` is caught and yields `None`; the walk itself can
raise (out-of-range list index). -/
def jsonExtractCore (s : String) (path : String) : Except String PyVal :=
  match jsonLoads s with
  | Option.none => .ok .null
  | some d => jsonWalk (splitOnChar '.' path.data) d

/-- `_execute_string_node`. -/
def executeStringNode (env : Env) (node : Node) (ctx : Ctx) : Except String PyVal := do
  let config := node.config
  let operation := cfgGet config "operation" (.str "concat")
  let inputText := replaceVal (cfgGet config "input_text" (.str "")) ctx.toPyVal
  let result ←
    match operation with
    | .str "concat" => do
        let texts ←
          match cfgGet config "texts" (.list []) with
          | .list l => pure l
          | _ => throw "TypeError: not iterable"
        let sep ←
          match cfgGet config "separator" (.str "") with
          | .str s => pure s
          | _ => throw "AttributeError: join"
        let pieces ← pyJoinE sep (texts.map (fun t => replaceVal t ctx.toPyVal))
        pure (PyVal.str (String.intercalate sep pieces))
    | .str "replace" => do
        let search ←
          match replaceVal (cfgGet config "search" (.str "")) ctx.toPyVal with
          | .str s => pure s
          | _ => throw "TypeError: replace() argument 1 must be str"
        let repw ←
          match replaceVal (cfgGet config "replace_with" (.str "")) ctx.toPyVal with
          | .str s => pure s
          | _ => throw "TypeError: replace() argument 2 must be str"
        match inputText with
        | .str s => pure (PyVal.str (pyStrReplace s search repw))
        | _ => throw "AttributeError: replace"
    | .str "split" => do
        let delim ←
          match cfgGet config "delimiter" (.str ",") with
          | .str s => pure s
          | _ => throw "TypeError: must be str or None"
        match inputText with
        | .str s =>
            if delim.data.isEmpty then throw "ValueError: empty separator"
            else pure (PyVal.list
              ((splitOnList delim.data (s.data.length + 1) s.data).map
                (fun g => PyVal.str (String.mk g))))
        | _ => throw "AttributeError: split"
    | .str "extract" => do
        let pat ←
          match cfgGet config "pattern" (.str "") with
          | .str s => pure s
          | _ => throw "TypeError: first argument must be string or compiled pattern"
        match inputText with
        | .str s => pure (PyVal.list (env.reFindall pat s))
        | _ => throw "TypeError: expected string or bytes-like object"
    | .str "format" =>
        pure (replaceVal (cfgGet config "template" (.str "")) ctx.toPyVal)
    | .str "upper" =>
        (match inputText with
         | .str s => pure (PyVal.str s.toUpper)
         | _ => throw "AttributeError: upper")
    | .str "lower" =>
        (match inputText with
         | .str s => pure (PyVal.str s.toLower)
         | _ => throw "AttributeError: lower")
    | .str "trim" =>
        (match inputText with
         | .str s => pure (PyVal.str (String.mk (pyStrip s.data)))
         | _ => throw "AttributeError: strip")
    | .str "length" =>
        (match inputText with
         | .str s => pure (PyVal.int s.data.length)
         | .list l => pure (PyVal.int l.length)
         | .dict d => pure (PyVal.int d.length)
         | _ => throw "TypeError: object has no len()")
    | .str "substring" => do
        let startI ←
          match cfgGet config "start" (.int 0) with
          | .int i => pure i
          | _ => throw "TypeError: slice indices must be integers or None"
        let endI ←
          match cfgGet config "end" .null with
          | .int i => pure (some i)
          | .null => pure Option.none
          | _ => throw "TypeError: slice indices must be integers or None"
        match inputText with
        | .str s => pure (PyVal.str (String.mk (pySlice s.data (some startI) endI)))
        | _ => throw "TypeError: subscript"
    | .str "json_extract" => do
        let path ←
          match cfgGet config "json_path" (.str "") with
          | .str s => pure s
          | _ => throw "AttributeError: split"
        match inputText with
        | .str s => jsonExtractCore s path
        | _ => throw "TypeError: the JSON object must be str, bytes or bytearray"
    | op => throw ("不支持的字符串操作: " ++ pyStr op)
  return .dict [("result", result), ("operation", operation), ("input_text", inputText)]

/-! ## Orchestrator (`WorkflowEngine`) -/

/-- `NodeExecutor.execute_node`: dispatch on the node type, wrapping any
failure as `节点 {node_id} 执行失败: {str(e)}`.  The returned object is a
fresh value for every handler except the `end` node's, whose result is
the live context itself. -/
def executeNode (env : Env) (node : Node) (ctx : Ctx) : Except String NodeOut :=
  let inner : Except String NodeOut :=
    match node.ntype with
    | "start" => (executeStartNode ctx).map NodeOut.val
    | "end" => executeEndNode ctx
    | "llm" => (executeLlmNode env node ctx).map NodeOut.val
    | "http" => (executeHttpNode env node ctx).map NodeOut.val
    | "knowledge" => (executeKnowledgeNode env node ctx).map NodeOut.val
    | "intent" => (executeIntentNode env node ctx).map NodeOut.val
    | "string" => (executeStringNode env node ctx).map NodeOut.val
    | t => .error ("不支持的节点类型: " ++ t)
  match inner with
  | .ok v => .ok v
  | .error e => .error ("节点 " ++ node.id ++ " 执行失败: " ++ e)

/-- `next((n for n in nodes if n.get("id") == node_id), None)`. -/
def findNode (nodes : List Node) (nid : String) : Option Node :=
  nodes.find? (fun n => n.id = nid)

/-- The label used in log rows: `node.data.label` or the node id. -/
def nodeLabel (n : Node) : String :=
  n.label.getD n.id

/-- The per-node loop of `execute_workflow`: execute in order, store each
output at `context["nodes"][node_id]` (an `end` node's output being the
context itself), log, and stop at the first failure (returning its
`str(e)`).  Ids absent from the node list are skipped. -/
def runNodes (env : Env) (nodes : List Node) :
    List String → CtxG → List LogEntry → (CtxG × List LogEntry × Option String)
  | [], g, logs => (g, logs, Option.none)
  | nid :: rest, g, logs =>
      match findNode nodes nid with
      | Option.none => runNodes env nodes rest g logs
      | some node =>
          let logs := logs ++ [⟨nid, nodeLabel node, node.ntype, "INFO",
            "开始执行节点: " ++ nid, Option.none⟩]
          match executeNode env node (ctxOfG g (nodeFuel node)) with
          | .ok out =>
              runNodes env nodes rest ⟨g.input, pyDictSet g.nodeOuts node.id out⟩
                (logs ++ [⟨nid, nodeLabel node, node.ntype, "INFO", "节点执行成功", some out⟩])
          | .error e =>
              (g, logs ++ [⟨nid, nodeLabel node, node.ntype, "ERROR",
                "节点执行失败: " ++ e, Option.none⟩], some e)

/-- Everything `execute_workflow` leaves behind: the updated workflow and
execution records, the appended log rows, and either the returned
`output_data` or the raised engine error. -/
structure ExecOutcome where
  workflow : WorkflowRec
  record : ExecRecord
  logs : List LogEntry
  result : Except String (List (String × NodeOut))

/-- `WorkflowEngine.execute_workflow`.  Validation failure raises before
any state change; otherwise the record goes RUNNING, the nodes run in
topological order, and the terminal state is COMPLETED (both counters
bumped, output published) or FAILED (only the execution counter bumped,
error message recorded, the partial context preserved). -/
def executeWorkflow (env : Env) (wf : WorkflowRec) (exec : ExecRecord)
    (inputData : PyVal) : ExecOutcome :=
  match wf.definition with
  | Option.none =>
      ⟨wf, exec, [], .error ("工作流验证失败: " ++ String.intercalate ", "
        (validateWorkflow wf).2.1)⟩
  | some dfn =>
      if ¬ (validate dfn).1 then
        ⟨wf, exec, [], .error ("工作流验证失败: " ++ String.intercalate ", "
          (validate dfn).2.1)⟩
      else
        let ctx0 : CtxG := ⟨inputData, []⟩
        let execR := { exec with
          status := ExecStatus.RUNNING
          startedAt := some env.startTime
          context := some ctx0 }
        let order := topologicalSort dfn.nodes dfn.edges
        let step := runNodes env dfn.nodes order ctx0 []
        let ctxF := step.1
        let logs := step.2.1
        match step.2.2 with
        | Option.none =>
            let wfC := { wf with
              executionCount := wf.executionCount + 1
              successCount := wf.successCount + 1 }
            let execC := { execR with
              status := ExecStatus.COMPLETED
              completedAt := some env.endTime
              durationSeconds := some ((env.endTime : Int) - (env.startTime : Int))
              context := some ctxF
              outputData := some ctxF.nodeOuts }
            ⟨wfC, execC, logs, .ok ctxF.nodeOuts⟩
        | some e =>
            let wfF := { wf with executionCount := wf.executionCount + 1 }
            let execF := { execR with
              status := ExecStatus.FAILED
              completedAt := some env.endTime
              durationSeconds := some ((env.endTime : Int) - (env.startTime : Int))
              errorMessage := some e
              context := some ctxF }
            ⟨wfF, execF, logs, .error ("工作流执行失败: " ++ e)⟩

/-! ## Python `==` against the (possibly self-referential) output -/

mutual

/-- Python `==` on finite JSON-like values, with the numeric cross-type
equalities (`True == 1 == 1.0`); recursion is on the first operand. -/
def pyEqCl : PyVal → PyVal → Bool
  | .null, w => match w with | .null => true | _ => false
  | .bool b, w =>
      match w with
      | .bool c => decide (b = c)
      | .int m => decide ((if b then (1 : Int) else 0) = m)
      | .rat q => decide ((if b then (1 : ℚ) else 0) = q)
      | _ => false
  | .int n, w =>
      match w with
      | .bool c => decide (n = (if c then (1 : Int) else 0))
      | .int m => decide (n = m)
      | .rat q => decide ((n : ℚ) = q)
      | _ => false
  | .rat p, w =>
      match w with
      | .bool c => decide (p = (if c then (1 : ℚ) else 0))
      | .int m => decide (p = (m : ℚ))
      | .rat q => decide (p = q)
      | _ => false
  | .str s, w => match w with | .str t => decide (s = t) | _ => false
  | .list xs, w => match w with | .list ys => pyEqSeq xs ys | _ => false
  | .dict kvs, w =>
      match w with
      | .dict kvs2 => decide (kvs.length = kvs2.length) && pyEqKvs kvs kvs2
      | _ => false

def pyEqSeq : List PyVal → List PyVal → Bool
  | [], ys => ys.isEmpty
  | x :: xs, ys =>
      match ys with
      | [] => false
      | y :: ys => pyEqCl x y && pyEqSeq xs ys

def pyEqKvs : List (String × PyVal) → List (String × PyVal) → Bool
  | [], _ => true
  | (k, v) :: rest, kvs2 =>
      (match pyLookup kvs2 k with
       | some w => pyEqCl v w
       | Option.none => false) && pyEqKvs rest kvs2

end

mutual

/-- Python `==` between a finite claimed value and a stored node output,
a stored self-reference comparing as the live context object; recursion
is on the finite side, which is exactly why CPython's comparison of the
circular context against any finite dict terminates (dict `==` first
compares lengths, then looks each key of one side up in the other). -/
def clOutEq (g : CtxG) : PyVal → NodeOut → Bool
  | w, .val v => pyEqCl w v
  | .dict kvs, .ctxSelf => decide (kvs.length = 2) && clCtxEntries g kvs
  | _, .ctxSelf => false

def clCtxEntries (g : CtxG) : List (String × PyVal) → Bool
  | [] => true
  | (k, wv) :: rest =>
      (if k = "input" then pyEqCl wv g.input
       else if k = "nodes" then clNodesEq g wv
       else false) && clCtxEntries g rest

def clNodesEq (g : CtxG) : PyVal → Bool
  | .dict kvs => decide (kvs.length = g.nodeOuts.length) && clNodeEntries g kvs
  | _ => false

def clNodeEntries (g : CtxG) : List (String × PyVal) → Bool
  | [] => true
  | (k, wv) :: rest =>
      (match lookupOut g.nodeOuts k with
       | some o => clOutEq g wv o
       | Option.none => false) && clNodeEntries g rest

end

/-- Python `==` between a claimed finite value and the engine's
`output_data` (which is `context["nodes"]` of the final context `g`). -/
def outputEq (w : PyVal) (g : CtxG) : Bool :=
  clNodesEq g w

/-! ## Derived definitions used by the theorems -/

/-- Canonical fuel instantiation. -/
def replChars (ctx : PyVal) (cs : List Char) : List Char :=
  replCharsF ctx (cs.length + 1) cs

/-! ## Concrete fixtures used by witnesses and counterexamples -/

/-- An environment whose collaborators are all inert (never consulted by
the runs below, or consulted and failing). -/
def trivEnv : Env where
  getModel := fun _ => Option.none
  llmChat := fun _ _ _ _ => .error "no llm"
  httpSend := fun _ _ _ _ _ => .error "no net"
  getKB := fun _ => Option.none
  chunksFor := fun _ => []
  embedText := fun _ => []
  similarity := fun _ _ => 0
  getDoc := fun _ => Option.none
  reFindall := fun _ _ => []
  startTime := 10
  endTime := 25

/-- The spec's two-node scenario definition
`{nodes:[{id:"s",type:"start"},{id:"e",type:"end"}], edges:[{source:"s",target:"e"}]}`. -/
def twoNodeDef : WorkflowDef :=
  ⟨[⟨"s", "start", Option.none, []⟩, ⟨"e", "end", Option.none, []⟩], [⟨"s", "e"⟩]⟩

/-- A definition whose `http` node has no `url`, so that node raises. -/
def httpFailDef : WorkflowDef :=
  ⟨[⟨"s", "start", Option.none, []⟩, ⟨"h", "http", Option.none, []⟩], [⟨"s", "h"⟩]⟩

/-- A fresh PENDING execution record. -/
def freshExec : ExecRecord :=
  ⟨.PENDING, Option.none, Option.none, Option.none, Option.none, Option.none,
   Option.none, Option.none⟩

/-! ## Fixture for the string node's json_extract (claim C3) -/

/-- The string node used by the C3 counterexample: `json_extract` of path
`"5"` from the JSON list `[1,2]`. -/
def jsonExtractOOBNode : Node :=
  ⟨"j", "string", Option.none,
   [("operation", .str "json_extract"), ("input_text", .str "[1,2]"),
    ("json_path", .str "5")]⟩

/-! ## Fixtures for the intent node (claim C2) -/

/-- An intent node with every required config field present. -/
def intentNodeFix : Node :=
  ⟨"i", "intent", Option.none,
   [("model_id", .int 1), ("input_text", .str "hi"),
    ("intents", .list [.dict [("name", .str "greet")]])]⟩

/-- An environment whose model resolves but whose LLM call raises. -/
def intentChatFailEnv : Env :=
  { trivEnv with
    getModel := fun _ => some ⟨.dict []⟩
    llmChat := fun _ _ _ _ => .error "Connection error" }

/-- An environment whose LLM call succeeds with a reply that contains no
JSON object. -/
def intentDegradeEnv : Env :=
  { trivEnv with
    getModel := fun _ => some ⟨.dict []⟩
    llmChat := fun _ _ _ _ => .ok (.dict [("choices", .list
      [.dict [("message", .dict [("content", .str "no json here")])]])]) }

/-! ## Knowledge node scoring (claim C8) -/

/-- The pure value of the chunk-scoring loop once the threshold is known
to be numeric. -/
def kScore (env : Env) (qv : List ℚ) (t : ℚ) : List Chunk → List KResult
  | [] => []
  | c :: rest =>
      match c.embedding with
      | Option.none => kScore env qv t rest
      | some ev =>
          if ev.isEmpty then kScore env qv t rest
          else if t ≤ env.similarity qv ev then
            mkKResult env c (env.similarity qv ev) :: kScore env qv t rest
          else kScore env qv t rest

instance : IsTotal KResult kSortRel :=
  ⟨fun a b => le_total b.similarity a.similarity⟩

instance : IsTrans KResult kSortRel :=
  ⟨fun _ _ _ hab hbc => le_trans hbc hab⟩

/-- Fixtures for the C8 witness: one embedded chunk scoring 1 against a
threshold of 0, plus one chunk with no vector. -/
def kwEnv : Env :=
  { trivEnv with
    getKB := fun _ => some ⟨.int 2⟩
    chunksFor := fun _ => [⟨11, 7, "alpha", 0, some [1]⟩, ⟨12, 7, "beta", 1, Option.none⟩]
    embedText := fun _ => [1]
    similarity := fun _ _ => 1
    getDoc := fun _ => some ⟨"Doc"⟩ }

/-- A knowledge node with a complete config. -/
def kwNode : Node :=
  ⟨"k", "knowledge", Option.none,
   [("knowledge_base_id", .int 2), ("query", .str "hello"), ("top_k", .int 3),
    ("similarity_threshold", .int 0)]⟩

/-! ## Counting infrastructure for the topological sort (claim C6) -/

/-- The edges `_topological_sort` actually wires up (both endpoints known). -/
def validEdges (ids : List String) (edges : List Edge) : List Edge :=
  edges.filter (fun e => decide (e.source ∈ ids ∧ e.target ∈ ids))

/-- In-degree of `v` as a count over the wired edges. -/
def cIn (vE : List Edge) (v : String) : Nat :=
  vE.countP (fun e => decide (e.target = v))

/-- Total decrements applied to `v` after processing the nodes of `R`. -/
def decCount (adj : String → List String) (R : List String) (v : String) : Nat :=
  (R.map (fun u => (adj u).count v)).sum

/-- The loop invariant of Kahn's algorithm: the queue and result hold
known ids without duplicates or overlap; the in-degree table equals the
initial in-degree minus the decrements from processed nodes; a node is
queued or processed exactly when its count has reached zero; every queued
node already has all its predecessors in the result; and the result so far
respects every wired edge. -/
structure KInv (ids : List String) (adj : String → List String) (vE : List Edge)
    (st : KState) : Prop where
  qSub : ∀ v ∈ st.queue, v ∈ ids
  rSub : ∀ v ∈ st.result, v ∈ ids
  qNodup : st.queue.Nodup
  rNodup : st.result.Nodup
  disj : ∀ v ∈ st.queue, v ∉ st.result
  degEq : ∀ v, st.indeg v = (cIn vE v : Int) - (decCount adj st.result v : Int)
  touchedIff : ∀ v ∈ ids, ((v ∈ st.queue ∨ v ∈ st.result) ↔ st.indeg v ≤ 0)
  ready : ∀ v ∈ st.queue, ∀ e ∈ vE, e.target = v → e.source ∈ st.result
  sound : ∀ j v, st.result.get? j = some v → ∀ e ∈ vE, e.target = v →
    e.source ∈ st.result.take j

/-! ## Theorems: template substitution (claims C7 and C10) -/

theorem splitOnChar_ne_nil (sep : Char) (cs : List Char) : splitOnChar sep cs ≠ [] := by
  cases cs with
  | nil => simp [splitOnChar]
  | cons c cs =>
    by_cases h : c = sep
    · simp [splitOnChar, h]
    · simp only [splitOnChar, h, if_false]
      cases splitOnChar sep cs <;> simp

theorem grabInner_eq : ∀ {cs run rest : List Char}, grabInner cs = some (run, rest) →
    cs = run ++ '\x7d' :: '\x7d' :: rest ∧ ∀ c ∈ run, c ≠ '\x7d' := by
  intro cs
  induction cs with
  | nil => intro run rest h; simp [grabInner] at h
  | cons c cs ih =>
    intro run rest h
    by_cases hc : c = '\x7d'
    · subst hc
      simp only [grabInner, if_pos rfl] at h
      cases cs with
      | nil => simp at h
      | cons d ds =>
        by_cases hd : d = '\x7d'
        · subst hd
          injection h with h1
          injection h1 with h2 h3
          subst h2; subst h3; simp
        · rw [show (match (d :: ds : List Char) with
              | '\x7d' :: rest => some (([] : List Char), rest)
              | _ => (Option.none : Option (List Char × List Char))) = Option.none from ?_] at h
          · simp at h
          · cases hdd : decide (d = '\x7d') with
            | true => exact absurd (of_decide_eq_true hdd) hd
            | false => simp_all [grabInner]
    · simp only [grabInner, if_neg hc] at h
      cases hg : grabInner cs with
      | none => rw [hg] at h; simp at h
      | some pr =>
        obtain ⟨run0, rest0⟩ := pr
        rw [hg] at h
        injection h with h1
        injection h1 with h2 h3
        subst h2; subst h3
        obtain ⟨he, hall⟩ := ih hg
        refine ⟨by rw [List.cons_append, ← he], ?_⟩
        intro x hx
        rcases List.mem_cons.mp hx with hx | hx
        · subst hx; exact hc
        · exact hall x hx

theorem grabVar_eq {cs run rest : List Char} (h : grabVar cs = some (run, rest)) :
    cs = run ++ '\x7d' :: '\x7d' :: rest ∧ run ≠ [] ∧ ∀ c ∈ run, c ≠ '\x7d' := by
  unfold grabVar at h
  cases hg : grabInner cs with
  | none => rw [hg] at h; simp at h
  | some pr =>
    obtain ⟨run0, rest0⟩ := pr
    rw [hg] at h
    cases run0 with
    | nil => simp at h
    | cons r rs =>
      injection h with h1
      injection h1 with h2 h3
      subst h2; subst h3
      obtain ⟨he, hall⟩ := grabInner_eq hg
      exact ⟨he, by simp, hall⟩

theorem grabVar_length {cs run rest : List Char} (h : grabVar cs = some (run, rest)) :
    rest.length + 3 ≤ cs.length := by
  obtain ⟨he, hne, -⟩ := grabVar_eq h
  subst he
  have : 1 ≤ run.length := by
    cases run with
    | nil => exact absurd rfl hne
    | cons _ _ => simp
  simp [List.length_append]
  omega

theorem replCharsF_bb (ctx : PyVal) (f : Nat) (rest : List Char) :
    replCharsF ctx (f + 1) ('\x7b' :: '\x7b' :: rest) =
      (match grabVar rest with
       | some (inner, rest') =>
           match lookupPath ctx (pyStrip inner) with
           | some v => (pyStr v).data ++ replCharsF ctx f rest'
           | Option.none =>
               '\x7b' :: '\x7b' :: (inner ++ '\x7d' :: '\x7d' :: replCharsF ctx f rest')
       | Option.none => '\x7b' :: replCharsF ctx f ('\x7b' :: rest)) := rfl

theorem replCharsF_brace_other (ctx : PyVal) (f : Nat) {c2 : Char} (rest2 : List Char)
    (hc2 : c2 ≠ '\x7b') :
    replCharsF ctx (f + 1) ('\x7b' :: c2 :: rest2) =
      '\x7b' :: replCharsF ctx f (c2 :: rest2) := by
  simp [replCharsF, hc2]

theorem replCharsF_other (ctx : PyVal) (f : Nat) {c : Char} (rest : List Char)
    (hc : c ≠ '\x7b') :
    replCharsF ctx (f + 1) (c :: rest) = c :: replCharsF ctx f rest := by
  cases rest with
  | nil => simp [replCharsF, hc]
  | cons c2 r2 => simp [replCharsF, hc]

/-- Any fuel above the remaining length computes the same result: the
fuel-exhaustion branch of `replCharsF` is unreachable from `replaceStr`. -/
theorem replCharsF_fuel (ctx : PyVal) :
    ∀ f g cs, cs.length < f → cs.length < g →
      replCharsF ctx f cs = replCharsF ctx g cs := by
  intro f
  induction f with
  | zero => intro g cs hf; omega
  | succ f ihf =>
    intro g cs hf hg
    cases g with
    | zero => omega
    | succ g =>
      cases cs with
      | nil => rfl
      | cons c rest =>
        by_cases hc : c = '\x7b'
        · subst hc
          cases rest with
          | nil => rfl
          | cons c2 rest2 =>
            by_cases hc2 : c2 = '\x7b'
            · subst hc2
              rw [replCharsF_bb, replCharsF_bb]
              cases hgv : grabVar rest2 with
              | none =>
                rw [ihf g ('\x7b' :: rest2) (by simp at hf ⊢; omega)
                  (by simp at hg ⊢; omega)]
              | some pr =>
                obtain ⟨inner, rest'⟩ := pr
                have hr := grabVar_length hgv
                dsimp only
                cases lookupPath ctx (pyStrip inner) with
                | none =>
                  dsimp only
                  rw [ihf g rest' (by simp at hf; omega) (by simp at hg; omega)]
                | some v =>
                  dsimp only
                  rw [ihf g rest' (by simp at hf; omega) (by simp at hg; omega)]
            · rw [replCharsF_brace_other ctx f rest2 hc2,
                replCharsF_brace_other ctx g rest2 hc2,
                ihf g (c2 :: rest2) (by simp at hf ⊢; omega) (by simp at hg ⊢; omega)]
        · rw [replCharsF_other ctx f rest hc, replCharsF_other ctx g rest hc,
            ihf g rest (by simp at hf; omega) (by simp at hg; omega)]

theorem replaceStr_eq (s : String) (ctx : PyVal) :
    replaceStr s ctx = String.mk (replChars ctx s.data) := rfl

theorem lookupPath_empty (path : List Char) :
    lookupPath (.dict []) path = Option.none := by
  unfold lookupPath
  cases hs : splitOnChar '.' path with
  | nil => exact absurd hs (splitOnChar_ne_nil '.' path)
  | cons k rest => simp [walkSegs, pyLookup]

theorem grabInner_of_shape {inner : List Char} (rest : List Char)
    (hall : ∀ c ∈ inner, c ≠ '\x7d') :
    grabInner (inner ++ '\x7d' :: '\x7d' :: rest) = some (inner, rest) := by
  induction inner with
  | nil => simp [grabInner]
  | cons c cs ih =>
    have hc : c ≠ '\x7d' := hall c (by simp)
    simp only [List.cons_append, grabInner, if_neg hc, List.append_eq]
    rw [ih (fun d hd => hall d (by simp [hd]))]

theorem grabVar_of_shape {inner : List Char} (rest : List Char) (hne : inner ≠ [])
    (hall : ∀ c ∈ inner, c ≠ '\x7d') :
    grabVar (inner ++ '\x7d' :: '\x7d' :: rest) = some (inner, rest) := by
  unfold grabVar
  rw [grabInner_of_shape rest hall]
  cases inner with
  | nil => exact absurd rfl hne
  | cons c cs => rfl

theorem replChars_empty_ctx : ∀ f cs, cs.length < f → replCharsF (.dict []) f cs = cs := by
  intro f
  induction f with
  | zero => intro cs h; omega
  | succ f ihf =>
    intro cs hf
    cases cs with
    | nil => rfl
    | cons c rest =>
      by_cases hc : c = '\x7b'
      · subst hc
        cases rest with
        | nil => rfl
        | cons c2 rest2 =>
          by_cases hc2 : c2 = '\x7b'
          · subst hc2
            rw [replCharsF_bb]
            cases hgv : grabVar rest2 with
            | none =>
              rw [ihf ('\x7b' :: rest2) (by simp at hf ⊢; omega)]
            | some pr =>
              obtain ⟨inner, rest'⟩ := pr
              obtain ⟨he, hni, -⟩ := grabVar_eq hgv
              have hr := grabVar_length hgv
              dsimp only
              rw [lookupPath_empty]
              dsimp only
              rw [ihf rest' (by simp at hf; omega), he]
          · rw [replCharsF_brace_other _ f rest2 hc2,
              ihf (c2 :: rest2) (by simp at hf ⊢; omega)]
      · rw [replCharsF_other _ f rest hc, ihf rest (by simp at hf; omega)]

theorem replChars_verbatim (ctx : PyVal) :
    ∀ f (inner rest : List Char), inner ≠ [] → (∀ c ∈ inner, c ≠ '\x7d') →
      lookupPath ctx (pyStrip inner) = Option.none →
      ('\x7b' :: '\x7b' :: (inner ++ '\x7d' :: '\x7d' :: rest)).length < f →
      replCharsF ctx f ('\x7b' :: '\x7b' :: (inner ++ '\x7d' :: '\x7d' :: rest)) =
        '\x7b' :: '\x7b' :: (inner ++ '\x7d' :: '\x7d' :: replCharsF ctx (f - 1) rest) := by
  intro f inner rest hne hall hmiss hf
  cases f with
  | zero => omega
  | succ f =>
    rw [replCharsF_bb, grabVar_of_shape rest hne hall]
    dsimp only
    rw [hmiss]
    simp

theorem replChars_hit (ctx : PyVal) (v : PyVal) :
    ∀ f (inner rest : List Char), inner ≠ [] → (∀ c ∈ inner, c ≠ '\x7d') →
      lookupPath ctx (pyStrip inner) = some v →
      ('\x7b' :: '\x7b' :: (inner ++ '\x7d' :: '\x7d' :: rest)).length < f →
      replCharsF ctx f ('\x7b' :: '\x7b' :: (inner ++ '\x7d' :: '\x7d' :: rest)) =
        (pyStr v).data ++ replCharsF ctx (f - 1) rest := by
  intro f inner rest hne hall hhit hf
  cases f with
  | zero => omega
  | succ f =>
    rw [replCharsF_bb, grabVar_of_shape rest hne hall]
    dsimp only
    rw [hhit]
    simp

theorem dropWhile_cons_false {p : Char → Bool} {a : Char} (l : List Char)
    (h : p a = false) : List.dropWhile p (a :: l) = a :: l := by
  simp [List.dropWhile_cons, h]

theorem pyStrip_no_edge (p : List Char)
    (hh : ∀ c, p.head? = some c → isPySpace c = false)
    (hl : ∀ c, p.getLast? = some c → isPySpace c = false) :
    pyStrip p = p := by
  unfold pyStrip
  cases hp : p with
  | nil => rfl
  | cons a l =>
    rw [dropWhile_cons_false l (hh a (by rw [hp]; rfl))]
    cases hr : (a :: l).reverse with
    | nil => simp at hr
    | cons b m =>
      have hb : (a :: l).getLast? = some b := by
        rw [← List.head?_reverse, hr]; rfl
      rw [dropWhile_cons_false m (hl b (by rw [hp]; exact hb))]
      rw [← hr, List.reverse_reverse]

theorem pyStrip_wrap (p : List Char) (hne : p ≠ [])
    (hh : ∀ c, p.head? = some c → isPySpace c = false)
    (hl : ∀ c, p.getLast? = some c → isPySpace c = false) :
    pyStrip (' ' :: (p ++ [' '])) = p := by
  unfold pyStrip
  cases hp : p with
  | nil => exact absurd hp hne
  | cons a l =>
    have h1 : List.dropWhile isPySpace (' ' :: (a :: l ++ [' ']))
        = a :: (l ++ [' ']) := by
      rw [List.dropWhile_cons]
      simp only [show isPySpace ' ' = true from rfl, if_true]
      exact dropWhile_cons_false (l ++ [' ']) (hh a (by rw [hp]; rfl))
    rw [show (a :: l : List Char) ++ [' '] = a :: (l ++ [' ']) from rfl] at h1 ⊢
    rw [h1]
    have hrev : (a :: (l ++ [' '])).reverse = ' ' :: (a :: l).reverse := by
      rw [show (a :: (l ++ [' ']) : List Char) = (a :: l) ++ [' '] from rfl]
      simp
    rw [hrev]
    rw [List.dropWhile_cons]
    simp only [show isPySpace ' ' = true from rfl, if_true]
    cases hr : (a :: l).reverse with
    | nil => simp at hr
    | cons b m =>
      have hb : (a :: l).getLast? = some b := by
        rw [← List.head?_reverse, hr]; rfl
      rw [dropWhile_cons_false m (hl b (by rw [hp]; exact hb))]
      rw [← hr, List.reverse_reverse]

theorem str_data_append (s t : String) : (s ++ t).data = s.data ++ t.data := rfl

theorem str_mk_data (s : String) : String.mk s.data = s := rfl

theorem replaceStr_shape (ctx : PyVal) (inner rest : String) (hne : inner ≠ "")
    (hall : ∀ c ∈ inner.data, c ≠ '\x7d') :
    replaceStr ("\x7b\x7b" ++ inner ++ "\x7d\x7d" ++ rest) ctx =
      (match lookupPath ctx (pyStrip inner.data) with
       | some v => pyStr v ++ replaceStr rest ctx
       | Option.none => "\x7b\x7b" ++ inner ++ "\x7d\x7d" ++ replaceStr rest ctx) := by
  have hdne : inner.data ≠ [] := fun h => hne (by
    have : inner = String.mk inner.data := rfl
    rw [this, h])
  have hdata : ("\x7b\x7b" ++ inner ++ "\x7d\x7d" ++ rest).data
      = '\x7b' :: '\x7b' :: (inner.data ++ '\x7d' :: '\x7d' :: rest.data) := by
    simp [str_data_append]
  have hlen : ('\x7b' :: '\x7b' :: (inner.data ++ '\x7d' :: '\x7d' :: rest.data)).length
      = inner.data.length + rest.data.length + 4 := by
    simp [List.length_append]
    omega
  unfold replaceStr
  rw [hdata]
  cases hlp : lookupPath ctx (pyStrip inner.data) with
  | some v =>
    rw [replChars_hit ctx v _ inner.data rest.data hdne hall hlp (by rw [hlen]; omega)]
    have : replCharsF ctx
        (('\x7b' :: '\x7b' :: (inner.data ++ '\x7d' :: '\x7d' :: rest.data)).length + 1 - 1)
        rest.data = replCharsF ctx (rest.data.length + 1) rest.data := by
      apply replCharsF_fuel
      · rw [hlen]; omega
      · omega
    rw [this]
    show String.mk ((pyStr v).data ++ (replaceStr rest ctx).data) = _
    rfl
  | none =>
    rw [replChars_verbatim ctx _ inner.data rest.data hdne hall hlp (by rw [hlen]; omega)]
    have : replCharsF ctx
        (('\x7b' :: '\x7b' :: (inner.data ++ '\x7d' :: '\x7d' :: rest.data)).length + 1 - 1)
        rest.data = replCharsF ctx (rest.data.length + 1) rest.data := by
      apply replCharsF_fuel
      · rw [hlen]; omega
      · omega
    rw [this]
    show String.mk ('\x7b' :: '\x7b' :: (inner.data ++ '\x7d' :: '\x7d'
      :: (replaceStr rest ctx).data)) = _
    show _ = String.mk (('\x7b' :: '\x7b' :: inner.data ++ '\x7d' :: '\x7d' :: [])
      ++ (replaceStr rest ctx).data)
    simp

/-- C7: template substitution leaves every placeholder whose dot-path
lookup fails verbatim in the output (no exception is modelled at all: the
substitution is a total function), and substituting any string against the
empty context returns it unchanged — in particular every string without
nested double braces. -/
theorem C7_missed_placeholder_verbatim :
    (∀ s : String, replaceStr s (.dict []) = s) ∧
    (∀ (ctx : PyVal) (inner rest : String), inner ≠ "" →
      (∀ c ∈ inner.data, c ≠ '\x7d') →
      lookupPath ctx (pyStrip inner.data) = Option.none →
      replaceStr ("\x7b\x7b" ++ inner ++ "\x7d\x7d" ++ rest) ctx
        = "\x7b\x7b" ++ inner ++ "\x7d\x7d" ++ replaceStr rest ctx) := by
  constructor
  · intro s
    unfold replaceStr
    rw [replChars_empty_ctx (s.data.length + 1) s.data (by omega)]
  · intro ctx inner rest hne hall hmiss
    rw [replaceStr_shape ctx inner rest hne hall, hmiss]

/-- C7 witness: a concrete failed lookup is kept verbatim, and a concrete
string is fixed by substitution against the empty context. -/
theorem C7_missed_placeholder_verbatim_witness :
    replaceStr "abc \x7b\x7bmiss\x7d\x7d" (.dict []) = "abc \x7b\x7bmiss\x7d\x7d" ∧
    replaceStr ("\x7b\x7b" ++ "user.name" ++ "\x7d\x7d" ++ "!") (.dict [("user", .int 3)])
      = "\x7b\x7b" ++ "user.name" ++ "\x7d\x7d" ++ replaceStr "!" (.dict [("user", .int 3)]) :=
  ⟨C7_missed_placeholder_verbatim.1 "abc \x7b\x7bmiss\x7d\x7d",
   C7_missed_placeholder_verbatim.2 (.dict [("user", .int 3)]) "user.name" "!"
     (by decide) (by decide) (by rfl)⟩

theorem str_append_empty (s : String) : s ++ "" = s := by
  show String.mk (s.data ++ []) = s
  rw [List.append_nil]

theorem replaceStr_empty (ctx : PyVal) : replaceStr "" ctx = "" := rfl

/-- C10 counterexample: the frozen claim says `\x7b\x7b p \x7d\x7d` and
`\x7b\x7bp\x7d\x7d` substitute to the same result for every context, but on a
failed lookup each placeholder is kept verbatim with its own spacing, so
the two results differ on the empty context. -/
theorem C10_strip_counterexample :
    replaceStr "\x7b\x7b a \x7d\x7d" (.dict []) = "\x7b\x7b a \x7d\x7d" ∧
    replaceStr "\x7b\x7ba\x7d\x7d" (.dict []) = "\x7b\x7ba\x7d\x7d" ∧
    ("\x7b\x7b a \x7d\x7d" : String) ≠ "\x7b\x7ba\x7d\x7d" :=
  ⟨rfl, rfl, by decide⟩

/-- C10 (amended): the placeholder's inner path is stripped of leading and
trailing whitespace before the lookup, so `\x7b\x7b p \x7d\x7d` resolves the
same path as `\x7b\x7bp\x7d\x7d` and both yield `str(value)` whenever the
lookup succeeds (on a failed lookup each placeholder is left verbatim,
spacing preserved); whitespace around interior segments is not trimmed:
the path `a. b` looks up the key `" b"`, not `"b"`. -/
theorem C10_strip_amended :
    (∀ (ctx : PyVal) (p : String) (v : PyVal), p ≠ "" →
      (∀ c ∈ p.data, c ≠ '\x7d') →
      (∀ c, p.data.head? = some c → isPySpace c = false) →
      (∀ c, p.data.getLast? = some c → isPySpace c = false) →
      lookupPath ctx p.data = some v →
      replaceStr ("\x7b\x7b " ++ p ++ " \x7d\x7d") ctx = pyStr v ∧
      replaceStr ("\x7b\x7b" ++ p ++ "\x7d\x7d") ctx = pyStr v) ∧
    (∀ v : PyVal,
      replaceStr "\x7b\x7ba. b\x7d\x7d" (.dict [("a", .dict [(" b", v)])]) = pyStr v ∧
      replaceStr "\x7b\x7ba. b\x7d\x7d" (.dict [("a", .dict [("b", v)])])
        = "\x7b\x7ba. b\x7d\x7d") := by
  have hdne : ∀ p : String, p ≠ "" → p.data ≠ [] := by
    intro p hp h
    apply hp
    have : p = String.mk p.data := rfl
    rw [this, h]
  constructor
  · intro ctx p v hp hall hh hl hlook
    constructor
    · have hshape : ("\x7b\x7b " ++ p ++ " \x7d\x7d" : String)
          = "\x7b\x7b" ++ (" " ++ p ++ " ") ++ "\x7d\x7d" ++ "" := by
        show String.mk _ = String.mk _
        simp
      rw [hshape, replaceStr_shape ctx (" " ++ p ++ " ") ""
        (by intro h; have := congrArg String.data h; simp [str_data_append] at this)
        (by
          intro c hc
          simp [str_data_append] at hc
          rcases hc with hc | hc | hc
          · subst hc; decide
          · exact hall c hc
          · subst hc; decide)]
      have hstrip : pyStrip ((" " ++ p ++ " " : String)).data = p.data := by
        have : ((" " ++ p ++ " " : String)).data = ' ' :: (p.data ++ [' ']) := by
          simp [str_data_append]
        rw [this]
        exact pyStrip_wrap p.data (hdne p hp) hh hl
      rw [hstrip, hlook]
      dsimp only
      exact str_append_empty _
    · have hshape : ("\x7b\x7b" ++ p ++ "\x7d\x7d" : String)
          = "\x7b\x7b" ++ p ++ "\x7d\x7d" ++ "" := by
        rw [str_append_empty]
      rw [hshape, replaceStr_shape ctx p "" hp hall]
      have hstrip : pyStrip p.data = p.data := pyStrip_no_edge p.data hh hl
      rw [hstrip, hlook]
      dsimp only
      exact str_append_empty _
  · intro v
    constructor
    · have hshape : ("\x7b\x7ba. b\x7d\x7d" : String)
          = "\x7b\x7b" ++ "a. b" ++ "\x7d\x7d" ++ "" := by decide
      rw [hshape, replaceStr_shape _ "a. b" "" (by decide) (by decide)]
      have hstrip : pyStrip ("a. b" : String).data = ("a. b" : String).data := by decide
      rw [hstrip]
      have hlook : lookupPath (.dict [("a", .dict [(" b", v)])]) ("a. b" : String).data
          = some v := rfl
      rw [hlook]
      dsimp only
      exact str_append_empty _
    · have hshape : ("\x7b\x7ba. b\x7d\x7d" : String)
          = "\x7b\x7b" ++ "a. b" ++ "\x7d\x7d" ++ "" := by decide
      rw [hshape, replaceStr_shape _ "a. b" "" (by decide) (by decide)]
      have hstrip : pyStrip ("a. b" : String).data = ("a. b" : String).data := by decide
      rw [hstrip]
      have hlook : lookupPath (.dict [("a", .dict [("b", v)])]) ("a. b" : String).data
          = Option.none := rfl
      rw [hlook]
      dsimp only
      rw [replaceStr_empty]

/-- C10 witness: a successful lookup through both spaced and unspaced
placeholders, at a concrete context. -/
theorem C10_strip_amended_witness :
    replaceStr "\x7b\x7b user.name \x7d\x7d" (.dict [("user", .dict [("name", .str "ada")])])
      = "ada" ∧
    replaceStr "\x7b\x7buser.name\x7d\x7d" (.dict [("user", .dict [("name", .str "ada")])])
      = "ada" := by
  have h := C10_strip_amended.1 (.dict [("user", .dict [("name", .str "ada")])])
    "user.name" (.str "ada") (by decide) (by decide) (by decide) (by decide) (by rfl)
  have hs : ("\x7b\x7b " ++ "user.name" ++ " \x7d\x7d" : String)
      = "\x7b\x7b user.name \x7d\x7d" := by decide
  have hs2 : ("\x7b\x7b" ++ "user.name" ++ "\x7d\x7d" : String)
      = "\x7b\x7buser.name\x7d\x7d" := by decide
  rw [hs, hs2] at h
  exact h

/-! ## Theorems: orchestrator state machine (claims C1, C4, C5, C9) -/

/-- C4: when the workflow's definition fails validation, `execute_workflow`
raises an engine-level error before any state transition: the workflow
record (both counters included) and the execution record (status,
timestamps, context, output, error fields) are returned untouched and no
log row is written. -/
theorem C4_validation_failure_blocks_state (env : Env) (wf : WorkflowRec)
    (exec : ExecRecord) (input : PyVal) (h : (validateWorkflow wf).1 = false) :
    (executeWorkflow env wf exec input).workflow = wf ∧
    (executeWorkflow env wf exec input).record = exec ∧
    (executeWorkflow env wf exec input).logs = [] ∧
    ∃ msg, (executeWorkflow env wf exec input).result = Except.error msg := by
  cases hd : wf.definition with
  | none =>
    refine ⟨?_, ?_, ?_, ?_⟩ <;> simp [executeWorkflow, hd]
  | some dfn =>
    have hv : (validate dfn).1 = false := by
      rw [validateWorkflow, hd] at h
      exact h
    refine ⟨?_, ?_, ?_, ?_⟩ <;> simp [executeWorkflow, hd, hv]

/-- C4 witness: a workflow with no definition fails validation and nothing
is touched. -/
theorem C4_validation_failure_blocks_state_witness :
    (validateWorkflow ⟨Option.none, 5, 2⟩).1 = false ∧
    (executeWorkflow trivEnv ⟨Option.none, 5, 2⟩ freshExec (.dict [])).workflow
      = ⟨Option.none, 5, 2⟩ ∧
    (executeWorkflow trivEnv ⟨Option.none, 5, 2⟩ freshExec (.dict [])).record = freshExec :=
  ⟨rfl,
   (C4_validation_failure_blocks_state trivEnv ⟨Option.none, 5, 2⟩ freshExec (.dict []) rfl).1,
   (C4_validation_failure_blocks_state trivEnv ⟨Option.none, 5, 2⟩ freshExec (.dict [])
     rfl).2.1⟩

/-- C9: every run that passes validation bumps the workflow's execution
counter by exactly one; the success counter is bumped by one exactly when
the run completes, and is unchanged when a node fails. -/
theorem C9_counters (env : Env) (wf : WorkflowRec) (exec : ExecRecord) (input : PyVal)
    (h : (validateWorkflow wf).1 = true) :
    (executeWorkflow env wf exec input).workflow.executionCount
      = wf.executionCount + 1 ∧
    (∀ v, (executeWorkflow env wf exec input).result = Except.ok v →
      (executeWorkflow env wf exec input).workflow.successCount = wf.successCount + 1) ∧
    (∀ e, (executeWorkflow env wf exec input).result = Except.error e →
      (executeWorkflow env wf exec input).workflow.successCount = wf.successCount) := by
  cases hd : wf.definition with
  | none =>
    rw [validateWorkflow, hd] at h
    simp at h
  | some dfn =>
    have hv : (validate dfn).1 = true := by
      rw [validateWorkflow, hd] at h
      exact h
    cases hrun : (runNodes env dfn.nodes (topologicalSort dfn.nodes dfn.edges)
        ⟨input, []⟩ []).2.2 with
    | none =>
      refine ⟨?_, ?_, ?_⟩ <;> simp [executeWorkflow, hd, hv, hrun]
    | some e =>
      refine ⟨?_, ?_, ?_⟩ <;> simp [executeWorkflow, hd, hv, hrun]

/-- C9 witness: the two-node workflow completes, bumping both counters. -/
theorem C9_counters_witness :
    (validateWorkflow ⟨some twoNodeDef, 3, 2⟩).1 = true ∧
    (executeWorkflow trivEnv ⟨some twoNodeDef, 3, 2⟩ freshExec
      (.dict [("x", .int 1)])).workflow.executionCount = 4 ∧
    (executeWorkflow trivEnv ⟨some twoNodeDef, 3, 2⟩ freshExec
      (.dict [("x", .int 1)])).workflow.successCount = 3 := by
  refine ⟨rfl, ?_, ?_⟩
  · have h := (C9_counters trivEnv ⟨some twoNodeDef, 3, 2⟩ freshExec
      (.dict [("x", .int 1)]) rfl).1
    rw [h]; decide
  · have h := (C9_counters trivEnv ⟨some twoNodeDef, 3, 2⟩ freshExec
      (.dict [("x", .int 1)]) rfl).2.1 _ rfl
    rw [h]; decide

/-- C1 counterexample: a run in which the `http` node's handler raises
ends FAILED with `error_message` populated, but `error_node_id` is still
null — the engine never assigns it, contradicting the claim that it is
populated with the failing node's id. -/
theorem C1_error_node_id_counterexample :
    (executeWorkflow trivEnv ⟨some httpFailDef, 0, 0⟩ freshExec (.dict [])).record.status
      = ExecStatus.FAILED ∧
    (executeWorkflow trivEnv ⟨some httpFailDef, 0, 0⟩ freshExec (.dict [])).record.errorMessage
      = some "节点 h 执行失败: HTTP 节点必须配置 URL" ∧
    (executeWorkflow trivEnv ⟨some httpFailDef, 0, 0⟩ freshExec (.dict [])).record.errorNodeId
      = Option.none :=
  ⟨rfl, rfl, rfl⟩

/-- C1 (amended): when a node's handler raises, the orchestrator
transitions the record to FAILED and populates `error_message` with the
wrapped failure description (which itself names the failing node); it
never assigns `error_node_id`, which keeps its prior value on every path —
so `error_node_id` is trivially populated only on FAILED executions
(namely never). -/
theorem C1_failure_sets_message_not_node_id :
    (∀ (env : Env) (wf : WorkflowRec) (exec : ExecRecord) (input : PyVal),
      (executeWorkflow env wf exec input).record.errorNodeId = exec.errorNodeId) ∧
    (∀ (env : Env) (wf : WorkflowRec) (exec : ExecRecord) (input : PyVal)
      (dfn : WorkflowDef) (e : String),
      wf.definition = some dfn → (validate dfn).1 = true →
      (runNodes env dfn.nodes (topologicalSort dfn.nodes dfn.edges)
        ⟨input, []⟩ []).2.2 = some e →
      (executeWorkflow env wf exec input).record.status = ExecStatus.FAILED ∧
      (executeWorkflow env wf exec input).record.errorMessage = some e ∧
      (executeWorkflow env wf exec input).result = Except.error ("工作流执行失败: " ++ e)) := by
  constructor
  · intro env wf exec input
    cases hd : wf.definition with
    | none => simp [executeWorkflow, hd]
    | some dfn =>
      by_cases hv : (validate dfn).1 = true
      · cases hrun : (runNodes env dfn.nodes (topologicalSort dfn.nodes dfn.edges)
            ⟨input, []⟩ []).2.2 with
        | none => simp [executeWorkflow, hd, hv, hrun]
        | some e => simp [executeWorkflow, hd, hv, hrun]
      · simp [executeWorkflow, hd, hv]
  · intro env wf exec input dfn e hd hv hrun
    refine ⟨?_, ?_, ?_⟩ <;> simp [executeWorkflow, hd, hv, hrun]

/-- C1 witness: the amended statement at the concrete failing run. -/
theorem C1_failure_sets_message_not_node_id_witness :
    (executeWorkflow trivEnv ⟨some httpFailDef, 0, 0⟩ freshExec (.dict [])).record.errorNodeId
      = Option.none ∧
    (executeWorkflow trivEnv ⟨some httpFailDef, 0, 0⟩ freshExec (.dict [])).record.status
      = ExecStatus.FAILED ∧
    (executeWorkflow trivEnv ⟨some httpFailDef, 0, 0⟩ freshExec (.dict [])).record.errorMessage
      = some "节点 h 执行失败: HTTP 节点必须配置 URL" := by
  have h1 := C1_failure_sets_message_not_node_id.1 trivEnv ⟨some httpFailDef, 0, 0⟩
    freshExec (.dict [])
  have h2 := C1_failure_sets_message_not_node_id.2 trivEnv ⟨some httpFailDef, 0, 0⟩
    freshExec (.dict []) httpFailDef "节点 h 执行失败: HTTP 节点必须配置 URL" rfl rfl rfl
  exact ⟨h1, h2.1, h2.2.1⟩

/-- C5 (code bug): executing the two-node definition with input
`{"x": 1}` does complete, but `output_data` is not the finite dict the
scenario claims.  `_execute_end_node` returns the live context object and
`context["nodes"]["e"] = output` then stores that reference back, so
`output_data["e"]` is the context itself and `output_data["e"]["nodes"]`
contains an `"e"` entry (it is `output_data` again).  Python's `==`
between `output_data` and the scenario's literal is therefore `False`
(at `["e"]["nodes"]` the claimed dict has the single key `"s"` while the
live one has `"s"` and `"e"`), as the embedded comparison computes. -/
theorem C5_end_output_self_referential :
    (executeWorkflow trivEnv ⟨some twoNodeDef, 0, 0⟩ freshExec
      (.dict [("x", .int 1)])).record.status = ExecStatus.COMPLETED
    ∧ (executeWorkflow trivEnv ⟨some twoNodeDef, 0, 0⟩ freshExec
        (.dict [("x", .int 1)])).record.outputData
      = some [("s", NodeOut.val (.dict [("x", .int 1)])), ("e", NodeOut.ctxSelf)]
    ∧ (executeWorkflow trivEnv ⟨some twoNodeDef, 0, 0⟩ freshExec
        (.dict [("x", .int 1)])).record.context
      = some ⟨.dict [("x", .int 1)],
          [("s", NodeOut.val (.dict [("x", .int 1)])), ("e", NodeOut.ctxSelf)]⟩
    ∧ outputEq
        (.dict [("s", .dict [("x", .int 1)]),
                ("e", .dict [("input", .dict [("x", .int 1)]),
                             ("nodes", .dict [("s", .dict [("x", .int 1)])])])])
        ⟨.dict [("x", .int 1)],
         [("s", NodeOut.val (.dict [("x", .int 1)])), ("e", NodeOut.ctxSelf)]⟩
      = false :=
  ⟨rfl, rfl, rfl, rfl⟩

/-- C3 counterexample: `json_extract` is not total as claimed — an
all-digit path segment indexing a list out of range raises an uncaught
`IndexError` instead of returning null: on input `"[1,2]"` with path `"5"`
the handler raises. -/
theorem C3_json_extract_counterexample :
    executeStringNode trivEnv jsonExtractOOBNode ⟨.dict [], []⟩
      = Except.error "list index out of range" ∧
    executeNode trivEnv jsonExtractOOBNode ⟨.dict [], []⟩
      = Except.error "节点 j 执行失败: list index out of range" :=
  ⟨rfl, rfl⟩

/-- C3 (amended): `json_extract` parses `input_text` as JSON and walks the
dot path; it returns null on any parse error and on any path miss *except*
an all-digit segment indexing a list out of range, which raises an
uncaught `IndexError` (the handler catches only `json.JSONDecodeError`) —
every raised error is of exactly that shape. -/
theorem C3_json_extract_amended :
    (∀ s path : String, jsonLoads s = Option.none →
      jsonExtractCore s path = Except.ok PyVal.null) ∧
    (∀ (ks : List (List Char)) (d : PyVal) (e : String), jsonWalk ks d = Except.error e →
      e = "list index out of range" ∧
      ∃ ks₁ k ks₂ items, ks = ks₁ ++ k :: ks₂ ∧
        jsonWalk ks₁ d = Except.ok (PyVal.list items) ∧
        (!k.isEmpty && k.all Char.isDigit) = true ∧
        items.length ≤ digitsToNat k) ∧
    (∀ s path : String, (∃ v, jsonExtractCore s path = Except.ok v) ∨
      jsonExtractCore s path = Except.error "list index out of range") := by
  have hwalk : ∀ (ks : List (List Char)) (d : PyVal) (e : String),
      jsonWalk ks d = Except.error e →
      e = "list index out of range" ∧
      ∃ ks₁ k ks₂ items, ks = ks₁ ++ k :: ks₂ ∧
        jsonWalk ks₁ d = Except.ok (PyVal.list items) ∧
        (!k.isEmpty && k.all Char.isDigit) = true ∧
        items.length ≤ digitsToNat k := by
    intro ks
    induction ks with
    | nil => intro d e h; simp [jsonWalk] at h
    | cons k rest ih =>
      intro d e h
      cases d with
      | dict kvs =>
        cases hlk : pyLookup kvs (String.mk k) with
        | none => simp [jsonWalk, hlk] at h
        | some v' =>
          simp only [jsonWalk, hlk] at h
          obtain ⟨he, ks₁, k', ks₂, items, hks, hwalk₁, hdig, hlen⟩ := ih v' e h
          refine ⟨he, k :: ks₁, k', ks₂, items, by rw [hks]; rfl, ?_, hdig, hlen⟩
          simp [jsonWalk, hlk, hwalk₁]
      | list items =>
        by_cases hdig : (!k.isEmpty && k.all Char.isDigit) = true
        · cases hget : items.get? (digitsToNat k) with
          | none =>
            simp only [jsonWalk, hdig, if_true, hget] at h
            injection h with he
            refine ⟨he.symm, [], k, rest, items, rfl, by simp [jsonWalk], hdig, ?_⟩
            exact List.get?_eq_none.mp hget
          | some v' =>
            simp only [jsonWalk, hdig, if_true, hget] at h
            obtain ⟨he, ks₁, k', ks₂, items', hks, hwalk₁, hdig', hlen⟩ := ih v' e h
            refine ⟨he, k :: ks₁, k', ks₂, items', by rw [hks]; rfl, ?_, hdig', hlen⟩
            simp only [jsonWalk, hdig, if_true, hget]
            exact hwalk₁
        · simp only [jsonWalk, hdig, if_false] at h
          cases h
      | null => simp [jsonWalk] at h
      | bool b => simp [jsonWalk] at h
      | int n => simp [jsonWalk] at h
      | rat q => simp [jsonWalk] at h
      | str s => simp [jsonWalk] at h
  refine ⟨?_, hwalk, ?_⟩
  · intro s path h
    unfold jsonExtractCore
    rw [h]
  · intro s path
    cases hr : jsonExtractCore s path with
    | ok v => exact Or.inl ⟨v, rfl⟩
    | error e =>
      right
      unfold jsonExtractCore at hr
      cases hl : jsonLoads s with
      | none => rw [hl] at hr; cases hr
      | some d =>
        rw [hl] at hr
        obtain ⟨he, -⟩ := hwalk _ _ _ hr
        rw [he]

/-- C3 witness: the amended statement at the counterexample's input and at
a parse failure. -/
theorem C3_json_extract_amended_witness :
    jsonExtractCore "not json" "a" = Except.ok PyVal.null ∧
    ("list index out of range" = "list index out of range" ∧
      ∃ ks₁ k ks₂ items,
        [String.data "5"] = ks₁ ++ k :: ks₂ ∧
        jsonWalk ks₁ (PyVal.list [.int 1, .int 2]) = Except.ok (PyVal.list items) ∧
        (!k.isEmpty && k.all Char.isDigit) = true ∧
        items.length ≤ digitsToNat k) :=
  ⟨C3_json_extract_amended.1 "not json" "a" rfl,
   C3_json_extract_amended.2.1 [String.data "5"] (PyVal.list [.int 1, .int 2])
     "list index out of range" rfl⟩

/-- C2 counterexample: with every required config field present (truthy),
a language-model failure propagates out of the intent handler — it raises
instead of degrading to the `unknown` result. -/
theorem C2_intent_counterexample :
    pyTruthy (cfgGet intentNodeFix.config "model_id" .null) = true ∧
    pyTruthy (replaceVal (cfgGet intentNodeFix.config "input_text" (.str ""))
      (Ctx.toPyVal ⟨.dict [], []⟩)) = true ∧
    pyTruthy (cfgGet intentNodeFix.config "intents" (.list [])) = true ∧
    executeIntentNode intentChatFailEnv intentNodeFix ⟨.dict [], []⟩
      = Except.error "Connection error" :=
  ⟨rfl, rfl, rfl, rfl⟩

/-- C2 (amended): the intent handler raises when a required config field
(model_id, substituted input_text, intents) is missing, when the model id
does not resolve, when building the intent descriptions fails, when the
language-model call itself raises, or when the reply has a malformed
shape; when the call returns a string reply it never raises, and whenever
the reply contains no parseable JSON object the result degrades to intent
"unknown" with confidence 0. -/
theorem C2_intent_amended (env : Env) (node : Node) (ctx : Ctx) (model : Model)
    (intentsL : List PyVal) (descs : List String) (resp : PyVal) (content : String)
    (h1 : pyTruthy (cfgGet node.config "model_id" .null) = true)
    (h2 : pyTruthy (replaceVal (cfgGet node.config "input_text" (.str "")) ctx.toPyVal)
      = true)
    (hint : cfgGet node.config "intents" (.list []) = .list intentsL)
    (hne : intentsL ≠ [])
    (hm : env.getModel (cfgGet node.config "model_id" .null) = some model)
    (hd : intentDescs intentsL = Except.ok descs)
    (hchat : ∀ msgs t mt, env.llmChat model msgs t mt = Except.ok resp)
    (hc : extractContent resp = Except.ok (.str content)) :
    (executeIntentNode env node ctx = Except.ok (.dict
      [("intent", (pyLookup (intentParse content) "intent").getD (.str "unknown")),
       ("confidence", (pyLookup (intentParse content) "confidence").getD (.int 0)),
       ("reason", (pyLookup (intentParse content) "reason").getD (.str "")),
       ("input_text", replaceVal (cfgGet node.config "input_text" (.str "")) ctx.toPyVal),
       ("raw_response", .str content)])) ∧
    (scanBrace content.data = Option.none →
      (pyLookup (intentParse content) "intent").getD (.str "unknown") = .str "unknown" ∧
      (pyLookup (intentParse content) "confidence").getD (.int 0) = .int 0) ∧
    (∀ j, scanBrace content.data = some j → jsonLoads (String.mk j) = Option.none →
      (pyLookup (intentParse content) "intent").getD (.str "unknown") = .str "unknown" ∧
      (pyLookup (intentParse content) "confidence").getD (.int 0) = .int 0) := by
  refine ⟨?_, ?_, ?_⟩
  · unfold executeIntentNode
    rw [if_neg (by rw [h1]; exact not_not_intro rfl)]
    rw [if_neg (by rw [h2]; exact not_not_intro rfl)]
    rw [if_neg (by
      rw [hint]
      show ¬¬(pyTruthy (.list intentsL) = true)
      apply not_not_intro
      unfold pyTruthy
      simp [hne])]
    rw [hm]
    dsimp only
    rw [hint]
    dsimp only
    rw [hd]
    dsimp only
    rw [hchat]
    dsimp only
    rw [hc]
  · intro hsb
    unfold intentParse
    rw [hsb]
    exact ⟨rfl, rfl⟩
  · intro j hsb hjl
    unfold intentParse
    rw [hsb]
    dsimp only
    rw [hjl]
    exact ⟨rfl, rfl⟩

/-- C2 witness: the amended statement at a concrete complete config with a
reply containing no JSON — the handler succeeds with the degraded result. -/
theorem C2_intent_amended_witness :
    executeIntentNode intentDegradeEnv intentNodeFix ⟨.dict [], []⟩ = Except.ok (.dict
      [("intent", .str "unknown"), ("confidence", .int 0), ("reason", .str "无法解析响应"),
       ("input_text", .str "hi"), ("raw_response", .str "no json here")]) := by
  have h := C2_intent_amended intentDegradeEnv intentNodeFix ⟨.dict [], []⟩
    ⟨.dict []⟩ [.dict [("name", .str "greet")]] ["- greet:  (关键词: )"]
    (.dict [("choices", .list [.dict [("message", .dict [("content", .str "no json here")])]])])
    "no json here" rfl rfl rfl (List.cons_ne_nil _ _) rfl rfl (fun _ _ _ => rfl) rfl
  exact h.1.trans (by rfl)

theorem kChunkLoop_ok (env : Env) (qv : List ℚ) (threshV : PyVal) (t : ℚ)
    (ht : pyToRat threshV = some t) :
    ∀ cs, kChunkLoop env qv threshV cs = Except.ok (kScore env qv t cs) := by
  intro cs
  induction cs with
  | nil => rfl
  | cons c rest ih =>
    cases hce : c.embedding with
    | none => simp [kChunkLoop, kScore, hce, ih]
    | some ev =>
      by_cases hev : ev.isEmpty
      · simp [kChunkLoop, kScore, hce, hev, ih]
      · by_cases hsim : t ≤ env.similarity qv ev
        · simp [kChunkLoop, kScore, hce, hev, ht, hsim, ih]
        · simp [kChunkLoop, kScore, hce, hev, ht, hsim, ih]

theorem kScore_mem (env : Env) (qv : List ℚ) (t : ℚ) :
    ∀ cs r, r ∈ kScore env qv t cs ↔
      ∃ c ∈ cs, ∃ ev, c.embedding = some ev ∧ ev.isEmpty = false ∧
        t ≤ env.similarity qv ev ∧ r = mkKResult env c (env.similarity qv ev) := by
  intro cs r
  induction cs with
  | nil => simp [kScore]
  | cons c rest ih =>
    cases hce : c.embedding with
    | none =>
      simp only [kScore, hce, ih]
      constructor
      · rintro ⟨c', hc', rest'⟩
        exact ⟨c', List.mem_cons_of_mem _ hc', rest'⟩
      · rintro ⟨c', hc', ev, hev, hrest⟩
        rcases List.mem_cons.mp hc' with hh | hh
        · subst hh; rw [hce] at hev; cases hev
        · exact ⟨c', hh, ev, hev, hrest⟩
    | some ev =>
      by_cases hev : ev.isEmpty
      · simp only [kScore, hce, if_pos hev, ih]
        constructor
        · rintro ⟨c', hc', rest'⟩
          exact ⟨c', List.mem_cons_of_mem _ hc', rest'⟩
        · rintro ⟨c', hc', ev', hev', hne', hrest'⟩
          rcases List.mem_cons.mp hc' with hh | hh
          · subst hh
            rw [hce] at hev'
            injection hev' with hev'
            subst hev'
            rw [hev] at hne'
            cases hne'
          · exact ⟨c', hh, ev', hev', hne', hrest'⟩
      · by_cases hsim : t ≤ env.similarity qv ev
        · have hevf : ev.isEmpty = false := by
            revert hev; cases ev.isEmpty <;> simp
          simp only [kScore, hce, if_neg hev, if_pos hsim, List.mem_cons, ih]
          constructor
          · rintro (hh | ⟨c', hc', rest'⟩)
            · exact ⟨c, Or.inl rfl, ev, hce, hevf, hsim, hh⟩
            · exact ⟨c', Or.inr hc', rest'⟩
          · rintro ⟨c', hc', ev', hev', hne', hsim', hr'⟩
            rcases hc' with hh | hh
            · subst hh
              rw [hce] at hev'
              injection hev' with hev'
              subst hev'
              exact Or.inl hr'
            · exact Or.inr ⟨c', hh, ev', hev', hne', hsim', hr'⟩
        · simp only [kScore, hce, if_neg hev, if_neg hsim, ih]
          constructor
          · rintro ⟨c', hc', rest'⟩
            exact ⟨c', List.mem_cons_of_mem _ hc', rest'⟩
          · rintro ⟨c', hc', ev', hev', hne', hsim', hr'⟩
            rcases List.mem_cons.mp hc' with hh | hh
            · subst hh
              rw [hce] at hev'
              injection hev' with hev'
              subst hev'
              exact absurd hsim' hsim
            · exact ⟨c', hh, ev', hev', hne', hsim', hr'⟩

/-- C8: under a complete config with a resolvable knowledge base, a
successful embedding, a numeric threshold and a nonnegative integer
`top_k`, the knowledge node succeeds, and its `results` list consists
exactly of entries built from the chunks whose similarity is at or above
the threshold, sorted descending by (stored) similarity, truncated to the
first `top_k` (every surviving chunk appears when at most `top_k` pass);
when no chunk passes, the output is `results = []`, `count = 0`,
`context_text = ""` — the node still succeeds. -/
theorem C8_knowledge_filter_sort_truncate (env : Env) (node : Node) (ctx : Ctx)
    (kb : KB) (t : ℚ) (k : Int)
    (hkb : pyTruthy (cfgGet node.config "knowledge_base_id" .null) = true)
    (hq : pyTruthy (replaceVal (cfgGet node.config "query" (.str "")) ctx.toPyVal) = true)
    (hgkb : env.getKB (cfgGet node.config "knowledge_base_id" .null) = some kb)
    (hqv : (env.embedText
      (replaceVal (cfgGet node.config "query" (.str "")) ctx.toPyVal)).isEmpty = false)
    (ht : pyToRat (cfgGet node.config "similarity_threshold" (.rat (7 / 10))) = some t)
    (htop : cfgGet node.config "top_k" (.int 5) = .int k)
    (hk : 0 ≤ k) :
    ∃ rs,
      executeKnowledgeNode env node ctx = Except.ok (.dict
        [("results", .list (rs.map kResultPy)), ("count", .int rs.length),
         ("context_text", .str (contextText rs)),
         ("query", replaceVal (cfgGet node.config "query" (.str "")) ctx.toPyVal)]) ∧
      List.Pairwise kSortRel rs ∧
      rs.length = min k.toNat (kScore env
        (env.embedText (replaceVal (cfgGet node.config "query" (.str "")) ctx.toPyVal)) t
        (((env.chunksFor kb.kbid).filter (fun c => c.embedding.isSome)))).length ∧
      (∀ r ∈ rs, r ∈ kScore env
        (env.embedText (replaceVal (cfgGet node.config "query" (.str "")) ctx.toPyVal)) t
        ((env.chunksFor kb.kbid).filter (fun c => c.embedding.isSome))) ∧
      ((kScore env
        (env.embedText (replaceVal (cfgGet node.config "query" (.str "")) ctx.toPyVal)) t
        ((env.chunksFor kb.kbid).filter (fun c => c.embedding.isSome))).length ≤ k.toNat →
        ∀ r ∈ kScore env
          (env.embedText (replaceVal (cfgGet node.config "query" (.str "")) ctx.toPyVal)) t
          ((env.chunksFor kb.kbid).filter (fun c => c.embedding.isSome)), r ∈ rs) ∧
      (∀ r, r ∈ kScore env
          (env.embedText (replaceVal (cfgGet node.config "query" (.str "")) ctx.toPyVal)) t
          ((env.chunksFor kb.kbid).filter (fun c => c.embedding.isSome)) ↔
        ∃ c ∈ (env.chunksFor kb.kbid).filter (fun c => c.embedding.isSome), ∃ ev,
          c.embedding = some ev ∧ ev.isEmpty = false ∧
          t ≤ env.similarity
            (env.embedText (replaceVal (cfgGet node.config "query" (.str "")) ctx.toPyVal))
            ev ∧
          r = mkKResult env c (env.similarity
            (env.embedText (replaceVal (cfgGet node.config "query" (.str "")) ctx.toPyVal))
            ev)) ∧
      (kScore env
        (env.embedText (replaceVal (cfgGet node.config "query" (.str "")) ctx.toPyVal)) t
        ((env.chunksFor kb.kbid).filter (fun c => c.embedding.isSome)) = [] →
        rs = [] ∧ contextText rs = "") := by
  unfold executeKnowledgeNode
  rw [if_neg (by rw [hkb]; exact not_not_intro rfl)]
  rw [if_neg (by rw [hq]; exact not_not_intro rfl)]
  rw [hgkb]
  dsimp only
  rw [if_neg (by rw [hqv]; exact Bool.false_ne_true)]
  rw [kChunkLoop_ok env _ _ t ht]
  dsimp only
  rw [htop]
  dsimp only
  have hslice : ∀ (l : List KResult), pySliceTo l k = l.take k.toNat := by
    intro l
    unfold pySliceTo
    rw [if_neg (not_lt.mpr hk)]
  rw [hslice]
  refine ⟨_, rfl, ?_, ?_, ?_, ?_, ?_, ?_⟩
  · exact List.Pairwise.sublist (List.take_sublist _ _)
      (List.sorted_insertionSort kSortRel _)
  · rw [List.length_take, (List.perm_insertionSort kSortRel _).length_eq]
  · intro r hr
    exact ((List.perm_insertionSort kSortRel _).mem_iff).mp
      (List.mem_of_mem_take hr)
  · intro hle r hr
    have hlen : (List.insertionSort kSortRel (kScore env
        (env.embedText (replaceVal (cfgGet node.config "query" (.str "")) ctx.toPyVal)) t
        ((env.chunksFor kb.kbid).filter (fun c => c.embedding.isSome)))).length
        ≤ k.toNat := by
      rw [(List.perm_insertionSort kSortRel _).length_eq]
      exact hle
    rw [List.take_of_length_le hlen]
    exact ((List.perm_insertionSort kSortRel _).mem_iff).mpr hr
  · intro r
    exact kScore_mem env _ t _ r
  · intro hempty
    rw [hempty]
    refine ⟨by simp, ?_⟩
    simp [contextText]

/-- C8 witness: the theorem applied at the concrete fixtures. -/
theorem C8_knowledge_filter_sort_truncate_witness :
    ∃ rs,
      executeKnowledgeNode kwEnv kwNode ⟨.dict [], []⟩ = Except.ok (.dict
        [("results", .list (rs.map kResultPy)), ("count", .int rs.length),
         ("context_text", .str (contextText rs)), ("query", .str "hello")]) ∧
      List.Pairwise kSortRel rs := by
  obtain ⟨rs, h1, h2, -⟩ := C8_knowledge_filter_sort_truncate kwEnv kwNode ⟨.dict [], []⟩
    ⟨.int 2⟩ ((0 : Int) : ℚ) 3 rfl rfl rfl rfl rfl rfl (by decide)
  exact ⟨rs, h1, h2⟩

theorem decCount_append (adj : String → List String) (R S : List String) (v : String) :
    decCount adj (R ++ S) v = decCount adj R v + decCount adj S v := by
  unfold decCount
  rw [List.map_append, List.sum_append]

theorem insertNew_subset (acc : List String) (x y : String)
    (h : y ∈ insertNew acc x) : y ∈ acc ∨ y = x := by
  unfold insertNew at h
  by_cases hx : x ∈ acc
  · rw [if_pos hx] at h; exact Or.inl h
  · rw [if_neg hx] at h
    rcases List.mem_append.mp h with h | h
    · exact Or.inl h
    · exact Or.inr (List.mem_singleton.mp h)

theorem foldl_insertNew_nodup : ∀ (l acc : List String), acc.Nodup →
    (l.foldl insertNew acc).Nodup := by
  intro l
  induction l with
  | nil => intro acc h; exact h
  | cons x xs ih =>
    intro acc h
    apply ih
    unfold insertNew
    by_cases hx : x ∈ acc
    · rw [if_pos hx]; exact h
    · rw [if_neg hx]
      simp [List.nodup_append, h, hx]

theorem idList_nodup (nodes : List Node) : (idList nodes).Nodup :=
  foldl_insertNew_nodup _ [] List.nodup_nil

theorem foldl_insertNew_mem : ∀ (l acc : List String) (x : String),
    x ∈ l.foldl insertNew acc ↔ x ∈ acc ∨ x ∈ l := by
  intro l
  induction l with
  | nil => intro acc x; simp
  | cons y ys ih =>
    intro acc x
    rw [List.foldl_cons, ih]
    unfold insertNew
    by_cases hy : y ∈ acc
    · rw [if_pos hy]
      simp only [List.mem_cons]
      constructor
      · rintro (h | h)
        · exact Or.inl h
        · exact Or.inr (Or.inr h)
      · rintro (h | h | h)
        · exact Or.inl h
        · subst h; exact Or.inl hy
        · exact Or.inr h
    · rw [if_neg hy]
      simp only [List.mem_append, List.mem_singleton, List.mem_cons]
      tauto

theorem mem_idList (nodes : List Node) (x : String) :
    x ∈ idList nodes ↔ x ∈ nodes.map Node.id := by
  unfold idList
  rw [foldl_insertNew_mem]
  simp

theorem adjT_spec (ids : List String) (edges : List Edge) (u : String) :
    adjT ids edges u
      = ((validEdges ids edges).filter (fun e => decide (e.source = u))).map Edge.target := by
  unfold adjT validEdges
  suffices h : ∀ (es : List Edge) (m : String → List String),
      (es.foldl (fun m e =>
        if e.source ∈ ids ∧ e.target ∈ ids then
          fun x => if x = e.source then m e.source ++ [e.target] else m x
        else m) m) u
      = m u ++ ((es.filter (fun e => decide (e.source ∈ ids ∧ e.target ∈ ids))).filter
          (fun e => decide (e.source = u))).map Edge.target by
    rw [h]
    rfl
  intro es
  induction es with
  | nil => intro m; simp
  | cons e es ih =>
    intro m
    rw [List.foldl_cons, ih]
    by_cases hv : e.source ∈ ids ∧ e.target ∈ ids
    · rw [if_pos hv, List.filter_cons_of_pos (by simpa using hv)]
      by_cases hu : u = e.source
      · rw [List.filter_cons_of_pos (by simp [hu])]
        rw [if_pos hu, List.map_cons, ← hu]
        simp
      · rw [List.filter_cons_of_neg (by simp; exact fun h => hu h.symm)]
        rw [if_neg hu]
    · rw [if_neg hv, List.filter_cons_of_neg (by simpa using hv)]

theorem indeg0_spec (ids : List String) (edges : List Edge) (v : String) :
    indeg0 ids edges v = (cIn (validEdges ids edges) v : Int) := by
  unfold indeg0 cIn validEdges
  suffices h : ∀ (es : List Edge) (m : String → Int),
      (es.foldl (fun m e =>
        if e.source ∈ ids ∧ e.target ∈ ids then
          fun x => if x = e.target then m e.target + 1 else m x
        else m) m) v
      = m v + ((es.filter (fun e => decide (e.source ∈ ids ∧ e.target ∈ ids))).countP
          (fun e => decide (e.target = v)) : Int) by
    rw [h]
    simp
  intro es
  induction es with
  | nil => intro m; simp
  | cons e es ih =>
    intro m
    rw [List.foldl_cons, ih]
    by_cases hv : e.source ∈ ids ∧ e.target ∈ ids
    · rw [if_pos hv, List.filter_cons_of_pos (by simpa using hv)]
      by_cases hu : v = e.target
      · rw [List.countP_cons_of_pos _ _ (by simp [hu])]
        rw [if_pos hu, ← hu]
        push_cast
        omega
      · rw [List.countP_cons_of_neg _ _ (by simp; exact fun h => hu h.symm)]
        rw [if_neg hu]
    · rw [if_neg hv, List.filter_cons_of_neg (by simpa using hv)]

theorem adjT_count (ids : List String) (edges : List Edge) (u v : String) :
    (adjT ids edges u).count v
      = (validEdges ids edges).countP (fun e => decide (e.source = u ∧ e.target = v)) := by
  rw [adjT_spec]
  rw [List.count_eq_countP, List.countP_map, List.countP_filter]
  apply List.countP_congr
  intro e _
  simp only [Function.comp]
  by_cases h1 : e.target = v <;> by_cases h2 : e.source = u <;> simp [h1, h2]

theorem adjT_mem_ids (ids : List String) (edges : List Edge) (u n : String)
    (h : n ∈ adjT ids edges u) : n ∈ ids := by
  rw [adjT_spec] at h
  obtain ⟨e, he, het⟩ := List.mem_map.mp h
  have h2 := (List.mem_filter.mp (List.mem_filter.mp he).1).2
  rw [← het]
  exact (of_decide_eq_true h2).2

theorem validEdges_sub (ids : List String) (edges : List Edge) (e : Edge)
    (h : e ∈ validEdges ids edges) : e ∈ edges ∧ e.source ∈ ids ∧ e.target ∈ ids := by
  obtain ⟨h1, h2⟩ := List.mem_filter.mp h
  exact ⟨h1, of_decide_eq_true h2⟩

theorem mem_validEdges (ids : List String) (edges : List Edge) (e : Edge)
    (he : e ∈ edges) (h1 : e.source ∈ ids) (h2 : e.target ∈ ids) :
    e ∈ validEdges ids edges := by
  unfold validEdges
  exact List.mem_filter.mpr ⟨he, decide_eq_true ⟨h1, h2⟩⟩

theorem countP_split {α : Type} (l : List α) (p q : α → Bool) :
    l.countP p = l.countP (fun a => p a && q a) + l.countP (fun a => p a && !q a) := by
  induction l with
  | nil => simp
  | cons x xs ih =>
    rw [List.countP_cons, List.countP_cons, List.countP_cons, ih]
    cases hp : p x <;> cases hq : q x <;> simp [hp, hq] <;> omega

theorem decCount_eq (adj : String → List String) (vE : List Edge)
    (hAdjCount : ∀ u v, (adj u).count v
      = vE.countP (fun e => decide (e.source = u ∧ e.target = v))) :
    ∀ (R : List String), R.Nodup → ∀ v,
      decCount adj R v
        = vE.countP (fun e => decide (e.target = v) && decide (e.source ∈ R)) := by
  intro R
  induction R with
  | nil =>
    intro _ v
    simp only [decCount, List.map_nil, List.sum_nil]
    symm
    rw [List.countP_eq_zero]
    intro e _
    simp
  | cons u R ih =>
    intro hnd v
    have hu : u ∉ R := (List.nodup_cons.mp hnd).1
    have hR : R.Nodup := (List.nodup_cons.mp hnd).2
    have hstep : decCount adj (u :: R) v = (adj u).count v + decCount adj R v := by
      simp [decCount]
    rw [hstep, ih hR v, hAdjCount u v]
    rw [countP_split vE (fun e => decide (e.target = v) && decide (e.source ∈ u :: R))
      (fun e => decide (e.source = u))]
    have hc1 : vE.countP (fun e =>
        (decide (e.target = v) && decide (e.source ∈ u :: R)) && decide (e.source = u))
        = vE.countP (fun e => decide (e.source = u ∧ e.target = v)) := by
      apply List.countP_congr
      intro e _
      by_cases h1 : e.target = v <;> by_cases h2 : e.source = u <;>
        simp [h1, h2, List.mem_cons]
    have hc2 : vE.countP (fun e =>
        (decide (e.target = v) && decide (e.source ∈ u :: R)) && !decide (e.source = u))
        = vE.countP (fun e => decide (e.target = v) && decide (e.source ∈ R)) := by
      apply List.countP_congr
      intro e _
      by_cases h1 : e.target = v <;> by_cases h2 : e.source = u <;>
        by_cases h3 : e.source ∈ R <;> simp [h1, h2, h3, List.mem_cons, hu]
    rw [hc1, hc2]

theorem preds_in (adj : String → List String) (vE : List Edge)
    (hAdjCount : ∀ u v, (adj u).count v
      = vE.countP (fun e => decide (e.source = u ∧ e.target = v)))
    (h : String) (R : List String) (hhR : h ∉ R) (hnodup : R.Nodup)
    (n : String) (p' rest : List String) (hsplit : adj h = p' ++ rest)
    (heq : cIn vE n = decCount adj R n + p'.count n) :
    ∀ e ∈ vE, e.target = n → e.source ∈ R ∨ e.source = h := by
  by_contra hcon
  push_neg at hcon
  obtain ⟨e0, he0, ht0, hs0R, hs0h⟩ := hcon
  have h1 : decCount adj R n
      = vE.countP (fun e => decide (e.target = n) && decide (e.source ∈ R)) :=
    decCount_eq adj vE hAdjCount R hnodup n
  have h2 : cIn vE n
      = vE.countP (fun e => decide (e.target = n) && decide (e.source ∈ R))
        + vE.countP (fun e => decide (e.target = n) && !decide (e.source ∈ R)) := by
    unfold cIn
    exact countP_split vE _ (fun e => decide (e.source ∈ R))
  have h3 : vE.countP (fun e => decide (e.target = n) && !decide (e.source ∈ R))
      = vE.countP (fun e =>
          (decide (e.target = n) && !decide (e.source ∈ R)) && decide (e.source = h))
        + vE.countP (fun e =>
          (decide (e.target = n) && !decide (e.source ∈ R)) && !decide (e.source = h)) :=
    countP_split vE _ (fun e => decide (e.source = h))
  have h4 : vE.countP (fun e =>
        (decide (e.target = n) && !decide (e.source ∈ R)) && decide (e.source = h))
      = vE.countP (fun e => decide (e.source = h ∧ e.target = n)) := by
    apply List.countP_congr
    intro e _
    by_cases hh1 : e.target = n <;> by_cases hh2 : e.source = h
    · have : e.source ∉ R := by rw [hh2]; exact hhR
      simp [hh1, hh2, this, hhR]
    · by_cases hh3 : e.source ∈ R <;> simp [hh1, hh2, hh3]
    · simp [hh1, hh2]
    · simp [hh1, hh2]
  have h5 : 0 < vE.countP (fun e =>
      (decide (e.target = n) && !decide (e.source ∈ R)) && !decide (e.source = h)) := by
    rw [List.countP_pos_iff]
    exact ⟨e0, he0, by simp [ht0, hs0R, hs0h]⟩
  have h6 : p'.count n ≤ (adj h).count n := by
    rw [hsplit, List.count_append]
    omega
  have h7 : (adj h).count n = vE.countP (fun e => decide (e.source = h ∧ e.target = n)) :=
    hAdjCount h n
  omega

theorem processNbrs_cons (n : String) (rest : List String) (d : String → Int)
    (q : List String) :
    processNbrs (n :: rest) d q
      = processNbrs rest (fun x => if x = n then d n - 1 else d x)
          (if d n - 1 = 0 then q ++ [n] else q) := rfl

theorem processNbrs_inv (ids : List String) (adj : String → List String) (vE : List Edge)
    (hAdjCount : ∀ u v, (adj u).count v
      = vE.countP (fun e => decide (e.source = u ∧ e.target = v)))
    (hAdjMem : ∀ u n, n ∈ adj u → n ∈ ids)
    (h : String) (R : List String) (hhR : h ∉ R) (hRnodup : R.Nodup) :
    ∀ (ns p : List String) (d : String → Int) (q : List String),
      adj h = p ++ ns →
      (∀ v, d v = (cIn vE v : Int) - (decCount adj R v : Int) - (p.count v : Int)) →
      (∀ v ∈ q, v ∈ ids) → q.Nodup → (∀ v ∈ q, v ∉ R ++ [h]) →
      (∀ v ∈ ids, ((v ∈ q ∨ v ∈ R ++ [h]) ↔ d v ≤ 0)) →
      (∀ v ∈ q, ∀ e ∈ vE, e.target = v → e.source ∈ R ++ [h]) →
      (∀ v, (processNbrs ns d q).1 v
          = (cIn vE v : Int) - (decCount adj R v : Int) - (((p ++ ns).count v : Nat) : Int)) ∧
      (∀ v ∈ (processNbrs ns d q).2, v ∈ ids) ∧ (processNbrs ns d q).2.Nodup ∧
      (∀ v ∈ (processNbrs ns d q).2, v ∉ R ++ [h]) ∧
      (∀ v ∈ ids, ((v ∈ (processNbrs ns d q).2 ∨ v ∈ R ++ [h])
        ↔ (processNbrs ns d q).1 v ≤ 0)) ∧
      (∀ v ∈ (processNbrs ns d q).2, ∀ e ∈ vE, e.target = v → e.source ∈ R ++ [h]) := by
  intro ns
  induction ns with
  | nil =>
    intro p d q hsplit hd hq1 hq2 hq3 hq4 hq5
    simp only [processNbrs]
    refine ⟨?_, hq1, hq2, hq3, hq4, hq5⟩
    intro v
    rw [List.append_nil]
    exact hd v
  | cons n ns ih =>
    intro p d q hsplit hd hq1 hq2 hq3 hq4 hq5
    have hnadj : n ∈ adj h := by
      rw [hsplit]
      exact List.mem_append.mpr (Or.inr (List.mem_cons_self n ns))
    have hnids : n ∈ ids := hAdjMem h n hnadj
    have hl : p ++ n :: ns = (p ++ [n]) ++ ns := by
      rw [List.append_assoc]
      rfl
    have hsplit' : adj h = (p ++ [n]) ++ ns := by
      rw [hsplit]
      exact hl
    have hcount_pn : ∀ v, (((p ++ [n]).count v : Nat) : Int)
        = ((p.count v : Nat) : Int) + (if v = n then 1 else 0) := by
      intro v
      by_cases hv : v = n
      · subst hv
        rw [if_pos rfl, List.count_append]
        simp
      · rw [if_neg hv, List.count_append]
        have h0 : List.count v [n] = 0 := by
          rw [List.count_eq_zero]
          simp [hv]
        rw [h0]
        push_cast
        ring
    have hd' : ∀ v, (fun x => if x = n then d n - 1 else d x) v
        = (cIn vE v : Int) - (decCount adj R v : Int)
          - (((p ++ [n]).count v : Nat) : Int) := by
      intro v
      show (if v = n then d n - 1 else d v) = _
      by_cases hv : v = n
      · subst hv
        rw [if_pos rfl, hd v, hcount_pn v, if_pos rfl]
        omega
      · rw [if_neg hv, hd v, hcount_pn v, if_neg hv]
        omega
    rw [processNbrs_cons, hl]
    by_cases hz : d n - 1 = 0
    · rw [if_pos hz]
      have hnn : d n = 1 := by omega
      have hnt : ¬(n ∈ q ∨ n ∈ R ++ [h]) := by
        rw [hq4 n hnids, hnn]
        omega
      push_neg at hnt
      obtain ⟨hnq, hnR⟩ := hnt
      have hpred : ∀ e ∈ vE, e.target = n → e.source ∈ R ++ [h] := by
        have h1 := hd n
        rw [hnn] at h1
        have h2 : (p ++ [n]).count n = p.count n + 1 := by
          rw [List.count_append]
          simp
        have heqn : cIn vE n = decCount adj R n + (p ++ [n]).count n := by
          rw [h2]
          omega
        intro e he ht
        rcases preds_in adj vE hAdjCount h R hhR hRnodup n (p ++ [n]) ns hsplit'
            heqn e he ht with hsrc | hsrc
        · exact List.mem_append.mpr (Or.inl hsrc)
        · exact List.mem_append.mpr (Or.inr (by simp [hsrc]))
      apply ih (p ++ [n]) _ _ hsplit' hd'
      · intro v hv
        rcases List.mem_append.mp hv with hv | hv
        · exact hq1 v hv
        · rw [List.mem_singleton.mp hv]
          exact hnids
      · simp [List.nodup_append, hq2, hnq]
      · intro v hv
        rcases List.mem_append.mp hv with hv | hv
        · exact hq3 v hv
        · rw [List.mem_singleton.mp hv]
          exact hnR
      · intro v hvids
        by_cases hv : v = n
        · subst hv
          have hval : (fun x => if x = v then d v - 1 else d x) v ≤ 0 := by
            show (if v = v then d v - 1 else d v) ≤ 0
            rw [if_pos rfl]
            omega
          constructor
          · intro _
            exact hval
          · intro _
            exact Or.inl (List.mem_append.mpr (Or.inr (List.mem_singleton.mpr rfl)))
        · have hmem : (v ∈ q ++ [n] ∨ v ∈ R ++ [h]) ↔ (v ∈ q ∨ v ∈ R ++ [h]) := by
            constructor
            · rintro (hm | hm)
              · rcases List.mem_append.mp hm with hm | hm
                · exact Or.inl hm
                · exact absurd (List.mem_singleton.mp hm) hv
              · exact Or.inr hm
            · rintro (hm | hm)
              · exact Or.inl (List.mem_append.mpr (Or.inl hm))
              · exact Or.inr hm
          rw [hmem, hq4 v hvids]
          show d v ≤ 0 ↔ (if v = n then d n - 1 else d v) ≤ 0
          rw [if_neg hv]
      · intro v hv
        rcases List.mem_append.mp hv with hv | hv
        · exact hq5 v hv
        · rw [List.mem_singleton.mp hv]
          exact hpred
    · rw [if_neg hz]
      apply ih (p ++ [n]) _ _ hsplit' hd' hq1 hq2 hq3
      · intro v hvids
        rw [hq4 v hvids]
        show d v ≤ 0 ↔ (if v = n then d n - 1 else d v) ≤ 0
        by_cases hv : v = n
        · subst hv
          rw [if_pos rfl]
          omega
        · rw [if_neg hv]
      · exact hq5

theorem decCount_singleton (adj : String → List String) (h v : String) :
    decCount adj [h] v = (adj h).count v := by
  simp [decCount]

theorem kahnRun_succ (adj : String → List String) (fuel : Nat) (st : KState) :
    kahnRun adj (fuel + 1) st
      = match st.queue with
        | [] => st
        | h :: t => kahnRun adj fuel (kahnStep adj st h t) := rfl

theorem kahnStep_inv (ids : List String) (adj : String → List String) (vE : List Edge)
    (hAdjCount : ∀ u v, (adj u).count v
      = vE.countP (fun e => decide (e.source = u ∧ e.target = v)))
    (hAdjMem : ∀ u n, n ∈ adj u → n ∈ ids)
    (st : KState) (h : String) (t : List String)
    (hq : st.queue = h :: t) (inv : KInv ids adj vE st) :
    KInv ids adj vE (kahnStep adj st h t)
      ∧ (kahnStep adj st h t).result = st.result ++ [h] := by
  have hhq : h ∈ st.queue := by
    rw [hq]
    exact List.mem_cons_self h t
  have hhR : h ∉ st.result := inv.disj h hhq
  have hnodup_cons : h ∉ t ∧ t.Nodup := List.nodup_cons.mp (hq ▸ inv.qNodup)
  have main := processNbrs_inv ids adj vE hAdjCount hAdjMem h st.result hhR inv.rNodup
    (adj h) [] st.indeg t rfl
    (by
      intro v
      rw [inv.degEq v]
      simp)
    (by
      intro v hv
      exact inv.qSub v (by rw [hq]; exact List.mem_cons_of_mem h hv))
    hnodup_cons.2
    (by
      intro v hv hmem
      rcases List.mem_append.mp hmem with hm | hm
      · exact inv.disj v (by rw [hq]; exact List.mem_cons_of_mem h hv) hm
      · rw [List.mem_singleton.mp hm] at hv
        exact hnodup_cons.1 hv)
    (by
      intro v hvids
      have hiff : (v ∈ t ∨ v ∈ st.result ++ [h]) ↔ (v ∈ st.queue ∨ v ∈ st.result) := by
        rw [hq]
        constructor
        · rintro (hm | hm)
          · exact Or.inl (List.mem_cons_of_mem h hm)
          · rcases List.mem_append.mp hm with hm | hm
            · exact Or.inr hm
            · exact Or.inl (by rw [List.mem_singleton.mp hm]; exact List.mem_cons_self h t)
        · rintro (hm | hm)
          · rcases List.mem_cons.mp hm with hm | hm
            · exact Or.inr (List.mem_append.mpr (Or.inr (by rw [hm]; exact List.mem_singleton.mpr rfl)))
            · exact Or.inl hm
          · exact Or.inr (List.mem_append.mpr (Or.inl hm))
      rw [hiff, inv.touchedIff v hvids])
    (by
      intro v hv e he ht
      exact List.mem_append.mpr
        (Or.inl (inv.ready v (by rw [hq]; exact List.mem_cons_of_mem h hv) e he ht)))
  obtain ⟨c1, c2, c3, c4, c5, c6⟩ := main
  refine ⟨⟨c2, ?_, c3, ?_, c4, ?_, c5, c6, ?_⟩, rfl⟩
  · intro v hv
    rcases List.mem_append.mp hv with hm | hm
    · exact inv.rSub v hm
    · rw [List.mem_singleton.mp hm]
      exact inv.qSub h hhq
  · show (st.result ++ [h]).Nodup
    simp [List.nodup_append, inv.rNodup, hhR]
  · intro v
    have hc := c1 v
    rw [List.nil_append] at hc
    rw [show (kahnStep adj st h t).indeg = (processNbrs (adj h) st.indeg t).1 from rfl, hc,
      show (kahnStep adj st h t).result = st.result ++ [h] from rfl,
      decCount_append, decCount_singleton]
    push_cast
    ring
  · intro j v hget e he ht
    rw [show (kahnStep adj st h t).result = st.result ++ [h] from rfl] at hget ⊢
    by_cases hj : j < st.result.length
    · rw [List.get?_append hj] at hget
      have hs := inv.sound j v hget e he ht
      rw [List.take_append_of_le_length (le_of_lt hj)]
      exact hs
    · have hj' : st.result.length ≤ j := le_of_not_lt hj
      rw [List.get?_append_right hj'] at hget
      by_cases hj0 : j - st.result.length = 0
      · rw [hj0] at hget
        have hv : h = v := Option.some.inj hget
        have hsrc := inv.ready h hhq e he (by rw [hv]; exact ht)
        rw [List.take_append_eq_append_take, List.take_all_of_le hj']
        exact List.mem_append.mpr (Or.inl hsrc)
      · exfalso
        have hnone : ([h] : List String).get? (j - st.result.length) = none := by
          rw [List.get?_eq_none]
          simp
          omega
        rw [hnone] at hget
        exact Option.noConfusion hget

theorem kahnRun_inv (ids : List String) (adj : String → List String) (vE : List Edge)
    (hAdjCount : ∀ u v, (adj u).count v
      = vE.countP (fun e => decide (e.source = u ∧ e.target = v)))
    (hAdjMem : ∀ u n, n ∈ adj u → n ∈ ids) :
    ∀ (fuel : Nat) (st : KState), KInv ids adj vE st →
      ids.length + 1 ≤ st.result.length + fuel →
      KInv ids adj vE (kahnRun adj fuel st) ∧ (kahnRun adj fuel st).queue = [] := by
  intro fuel
  induction fuel with
  | zero =>
    intro st inv hfuel
    exfalso
    have hsub : st.result ⊆ ids := fun _ hv => inv.rSub _ hv
    have hle := (inv.rNodup.subperm hsub).length_le
    omega
  | succ fuel ih =>
    intro st inv hfuel
    cases hq : st.queue with
    | nil =>
      rw [kahnRun_succ, hq]
      exact ⟨inv, hq⟩
    | cons h t =>
      rw [kahnRun_succ, hq]
      obtain ⟨inv2, hres⟩ := kahnStep_inv ids adj vE hAdjCount hAdjMem st h t hq inv
      have hlen : (kahnStep adj st h t).result.length = st.result.length + 1 := by
        rw [hres, List.length_append, List.length_singleton]
      exact ih (kahnStep adj st h t) inv2 (by omega)

theorem kahn_init_inv (nodes : List Node) (edges : List Edge) :
    KInv (idList nodes) (adjT (idList nodes) edges) (validEdges (idList nodes) edges)
      ⟨(idList nodes).filter (fun v => indeg0 (idList nodes) edges v = 0),
        indeg0 (idList nodes) edges, []⟩ := by
  refine ⟨?_, ?_, ?_, ?_, ?_, ?_, ?_, ?_, ?_⟩
  · intro v hv
    exact (List.mem_filter.mp hv).1
  · intro v hv
    exact absurd hv (List.not_mem_nil v)
  · exact (idList_nodup nodes).filter _
  · exact List.nodup_nil
  · intro v _ hv
    exact List.not_mem_nil v hv
  · intro v
    show indeg0 (idList nodes) edges v = _
    rw [indeg0_spec]
    simp [decCount]
  · intro v hv
    have hspec := indeg0_spec (idList nodes) edges v
    constructor
    · rintro (hm | hm)
      · have h0 := of_decide_eq_true (List.mem_filter.mp hm).2
        show indeg0 (idList nodes) edges v ≤ 0
        omega
      · exact absurd hm (List.not_mem_nil v)
    · intro hle
      refine Or.inl (List.mem_filter.mpr ⟨hv, decide_eq_true ?_⟩)
      have hle2 : indeg0 (idList nodes) edges v ≤ 0 := hle
      omega
  · intro v hv e he ht
    exfalso
    have h0 := of_decide_eq_true (List.mem_filter.mp hv).2
    have hspec := indeg0_spec (idList nodes) edges v
    have hpos : 0 < cIn (validEdges (idList nodes) edges) v := by
      unfold cIn
      exact List.countP_pos_iff.mpr ⟨e, he, decide_eq_true ht⟩
    omega
  · intro j v hget
    exact absurd hget (by simp)

theorem kahn_complete (ids : List String) (adj : String → List String) (vE : List Edge)
    (hAdjCount : ∀ u v, (adj u).count v
      = vE.countP (fun e => decide (e.source = u ∧ e.target = v)))
    (hVE : ∀ e ∈ vE, e.source ∈ ids)
    (st : KState) (inv : KInv ids adj vE st) (hq : st.queue = [])
    (rank : String → Nat) (hrank : ∀ e ∈ vE, rank e.source < rank e.target) :
    ∀ v ∈ ids, v ∈ st.result := by
  have hall : ∀ k v, v ∈ ids → rank v < k → v ∈ st.result := by
    intro k
    induction k with
    | zero =>
      intro v _ hk
      omega
    | succ k ih =>
      intro v hvids hvk
      by_contra hvr
      have hnt : ¬(v ∈ st.queue ∨ v ∈ st.result) := by
        rw [hq]
        rintro (hm | hm)
        · exact List.not_mem_nil v hm
        · exact hvr hm
      have hpos : ¬(st.indeg v ≤ 0) := fun hle => hnt ((inv.touchedIff v hvids).mpr hle)
      have hdeg := inv.degEq v
      have hgt : decCount adj st.result v < cIn vE v := by omega
      rw [decCount_eq adj vE hAdjCount st.result inv.rNodup v] at hgt
      have hpos2 : 0 < vE.countP
          (fun e => decide (e.target = v) && !decide (e.source ∈ st.result)) := by
        have hsplit := countP_split vE (fun e => decide (e.target = v))
          (fun e => decide (e.source ∈ st.result))
        unfold cIn at hgt
        omega
      obtain ⟨e, he, hpe⟩ := List.countP_pos_iff.mp hpos2
      simp only [Bool.and_eq_true, Bool.not_eq_true', decide_eq_true_eq,
        decide_eq_false_iff_not] at hpe
      obtain ⟨ht, hsrc⟩ := hpe
      have hr := hrank e he
      rw [ht] at hr
      exact hsrc (ih e.source (hVE e he) (by omega))
  intro v hv
  exact hall (rank v + 1) v hv (Nat.lt_succ_self _)

/-- C6: on every definition whose edges reference existing node ids and whose
edge graph admits a topological ranking (is acyclic), `_topological_sort`
returns an order that respects every edge: the source appears at a strictly
earlier position than the target. -/
theorem C6_toposort_respects_edges (nodes : List Node) (edges : List Edge)
    (hvalid : ∀ e ∈ edges, e.source ∈ idList nodes ∧ e.target ∈ idList nodes)
    (hacyclic : ∃ rank : String → Nat, ∀ e ∈ edges, rank e.source < rank e.target) :
    ∀ e ∈ edges, ∃ i j : Nat, i < j
      ∧ (topologicalSort nodes edges).get? i = some e.source
      ∧ (topologicalSort nodes edges).get? j = some e.target := by
  obtain ⟨rank, hrank⟩ := hacyclic
  have hfin := kahnRun_inv (idList nodes) (adjT (idList nodes) edges)
    (validEdges (idList nodes) edges)
    (adjT_count (idList nodes) edges) (adjT_mem_ids (idList nodes) edges)
    ((idList nodes).length + edges.length + 1)
    ⟨(idList nodes).filter (fun v => indeg0 (idList nodes) edges v = 0),
      indeg0 (idList nodes) edges, []⟩
    (kahn_init_inv nodes edges)
    (by
      show (idList nodes).length + 1 ≤ ([] : List String).length + _
      rw [List.length_nil]
      omega)
  obtain ⟨invF, hqF⟩ := hfin
  have heq : topologicalSort nodes edges
      = (kahnRun (adjT (idList nodes) edges)
          ((idList nodes).length + edges.length + 1)
          ⟨(idList nodes).filter (fun v => indeg0 (idList nodes) edges v = 0),
            indeg0 (idList nodes) edges, []⟩).result := rfl
  have hcomp := kahn_complete (idList nodes) (adjT (idList nodes) edges)
    (validEdges (idList nodes) edges) (adjT_count (idList nodes) edges)
    (fun e he => (validEdges_sub (idList nodes) edges e he).2.1)
    _ invF hqF rank
    (fun e he => hrank e (validEdges_sub (idList nodes) edges e he).1)
  intro e he
  have hevE : e ∈ validEdges (idList nodes) edges :=
    mem_validEdges (idList nodes) edges e he (hvalid e he).1 (hvalid e he).2
  have htR := hcomp e.target (hvalid e he).2
  rw [← heq] at htR
  obtain ⟨j, hj⟩ := List.mem_iff_get?.mp htR
  have hsrc := invF.sound j e.target (by rw [heq] at hj; exact hj) e hevE rfl
  rw [← heq] at hsrc
  obtain ⟨i, hi⟩ := List.mem_iff_get?.mp hsrc
  have hilen : i < ((topologicalSort nodes edges).take j).length := by
    by_contra hc
    rw [List.get?_eq_none.mpr (le_of_not_lt hc)] at hi
    exact Option.noConfusion hi
  rw [List.length_take] at hilen
  have hij : i < j := lt_of_lt_of_le hilen (min_le_left _ _)
  refine ⟨i, j, hij, ?_, hj⟩
  rw [← List.get?_take hij]
  exact hi

theorem C6_toposort_respects_edges_witness :
    ∃ i j : Nat, i < j
      ∧ (topologicalSort twoNodeDef.nodes twoNodeDef.edges).get? i = some "s"
      ∧ (topologicalSort twoNodeDef.nodes twoNodeDef.edges).get? j = some "e" :=
  C6_toposort_respects_edges twoNodeDef.nodes twoNodeDef.edges
    (by decide)
    ⟨fun v => if v = "e" then 1 else 0, by decide⟩
    ⟨"s", "e"⟩ (List.mem_singleton.mpr rfl)

